import Mathlib

/-!
Verification of the riscv/docs-resources normative-rule tooling
(`tools/create_normative_rules.py` and `tools/detect_tag_changes.py`).

The Python sources are shallowly embedded below.  Pure string processing is
modelled on `List Char`; Python regular-expression substitutions are modelled
by executable scanners that reproduce the exact semantics of the patterns used
in the source (leftmost match, lazy/greedy repetition, lookaround, the
behaviour of `$` just before a trailing newline, and continuation after the
end of each match).  Fallible constructors (`fatal(...)` / raised exceptions)
are modelled with `Except`.  Output side effects (`error(...)` logging) are
modelled as an accumulated list of structured error values.
-/

namespace DocsResources

/-- The set of characters matched by Python's `\s` for `str` patterns, which
is also exactly the set stripped by `str.strip()` with no arguments. -/
def pyWS (c : Char) : Bool :=
  c = ' ' || c = '\t' || c = '\n' || c = '\x0d' || c = '\x0b' || c = '\x0c' ||
  c = '\x1c' || c = '\x1d' || c = '\x1e' || c = '\x1f' || c = '\x85' ||
  c = '\xa0' || c = Char.ofNat 0x1680 ||
  (Char.ofNat 0x2000 ≤ c && c ≤ Char.ofNat 0x200a) ||
  c = Char.ofNat 0x2028 || c = Char.ofNat 0x2029 || c = Char.ofNat 0x202f ||
  c = Char.ofNat 0x205f || c = Char.ofNat 0x3000

/-- Python's `\w` word-character class, restricted to the ASCII range
(the tag/rule corpus this toolchain processes is ASCII). -/
def pyWordChar (c : Char) : Bool :=
  ('a' ≤ c && c ≤ 'z') || ('A' ≤ c && c ≤ 'Z') || ('0' ≤ c && c ≤ '9') || c = '_'

/-- Python `str.strip()` (no arguments): drop whitespace from both ends. -/
def pyStrip (l : List Char) : List Char :=
  ((l.dropWhile pyWS).reverse.dropWhile pyWS).reverse

/-- Python `str.split(sep)` for a one-character separator: always returns at
least one field and keeps empty fields, including trailing ones. -/
def pySplit (sep : Char) : List Char → List (List Char)
  | [] => [[]]
  | c :: rest =>
    match pySplit sep rest with
    | r :: rs => if c = sep then [] :: r :: rs else (c :: r) :: rs
    | [] => [[]]

/-- `pySplit` never returns the empty list of fields. -/
theorem pySplit_ne_nil (sep : Char) (l : List Char) : pySplit sep l ≠ [] := by
  cases l with
  | nil => simp [pySplit]
  | cons c rest =>
    simp only [pySplit]
    cases h : pySplit sep rest with
    | nil => simp
    | cons r rs =>
      by_cases hc : c = sep <;> simp [hc]

/-! ## Dynamically typed input values

Rule definition entries arrive from YAML as dynamically typed Python values;
`PyVal` models the value shapes the constructor inspects with `isinstance`. -/

inductive PyVal where
  | none
  | bool (b : Bool)
  | int (n : Int)
  | str (s : String)
  | list (elems : List PyVal)
  | dict (entries : List (String × PyVal))

/-- `type(v).__name__`, as used in the error messages. -/
def pyTypeName : PyVal → String
  | .none => "NoneType"
  | .bool _ => "bool"
  | .int _ => "int"
  | .str _ => "str"
  | .list _ => "list"
  | .dict _ => "dict"

/-- Raw dictionary lookup (`key in data` and `data[key]`). -/
def pyGet (data : List (String × PyVal)) (key : String) : Option PyVal :=
  (data.find? (fun p => p.1 == key)).map Prod.snd

/-- `data.get(key)`, which also yields `None` when the key maps to `None`;
every `is not None` guard in the source therefore sees `Option.none` for
both an absent key and an explicit null value. -/
def pyGetOpt (data : List (String × PyVal)) (key : String) : Option PyVal :=
  match pyGet data key with
  | some PyVal.none => Option.none
  | v => v

/-! ## Normative rule definitions (`NormativeRuleDef.__init__`) -/

/-- The structured counterparts of the `fatal(...)` messages raised while
constructing a `NormativeRuleDef` (and its `TagRef`s). -/
inductive ConstructErr where
  /-- `Need String for name but was passed a ...` (TagRef). -/
  | needString (what : String) (got : String)
  /-- `Need Boolean for context but was passed a ...` (TagRef). -/
  | needBoolean (what : String) (got : String)
  /-- `Provided <got> class for <field> in normative rule <name> but need a ...`. -/
  | fieldTypeErr (got : String) (field : String) (nrName : String)
  /-- `Don't recognize kind '<kind>' for normative rule <name>`. -/
  | badKind (kind : String) (nrName : String)
  /-- `Don't recognize impl-def-category '<cat>' for normative rule <name>`. -/
  | badImpldefCat (cat : String) (nrName : String)
  /-- `Normative rule <name> has impl-def-category property but impl-def-behavior isn't true`. -/
  | catWithoutImpldef (nrName : String)
  /-- `Normative rule <name> defines instances but no kind`. -/
  | instancesWithoutKind (nrName : String)
  /-- `Normative rule <name> tag reference ... missing name`. -/
  | tagRefMissingName (nrName : String)
  /-- `Normative rule <name> has tag reference that's a ... instead of a String or Dict`. -/
  | tagRefBadType (nrName : String) (got : String)
  /-- `Normative rule '<name>' doesn't match regex pattern '<pattern>'`. -/
  | nameMismatch (nrName : String) (pat : String)
  /-- An uncaught Python `TypeError` (e.g. `list.extend` of a non-iterable). -/
  | pyTypeError (what : String)
  deriving DecidableEq, Repr

/-- Holds reference to one tag in a normative rule definition. -/
structure TagRef where
  name : String
  context : Bool
  deriving DecidableEq, Repr

/-- `TagRef.__init__`: requires a string name and a boolean context flag,
checked in that order. -/
def TagRef.make (name : PyVal) (context : PyVal) : Except ConstructErr TagRef :=
  match name with
  | .str n =>
    match context with
    | .bool b => .ok ⟨n, b⟩
    | v => .error (.needBoolean "context" (pyTypeName v))
  | v => .error (.needString "name" (pyTypeName v))

-- Enums (module constants `KINDS` and `IMPLDEF_CATEGORIES`).
def KINDS : List String :=
  ["extension", "extension_dependency", "instruction", "csr", "csr_field"]

def IMPLDEF_CATEGORIES : List String := ["WARL", "WLRL"]

-- Norm rule name checking (module constants, payload of the error message).
def NORM_RULE_NAME_PATTERN : String := "^[a-zA-Z][a-zA-Z0-9_-]+$"

def IMPLDEF_NAME_PATTERN : String := "^[A-Z][A-Z0-9_]+$"

/-- `[A-Z]`. -/
def implHead (c : Char) : Bool := 'A' ≤ c && c ≤ 'Z'

/-- `[A-Z0-9_]`. -/
def implTail (c : Char) : Bool :=
  ('A' ≤ c && c ≤ 'Z') || ('0' ≤ c && c ≤ '9') || c = '_'

/-- `[a-zA-Z]`. -/
def normHead (c : Char) : Bool :=
  ('a' ≤ c && c ≤ 'z') || ('A' ≤ c && c ≤ 'Z')

/-- `[a-zA-Z0-9_-]`. -/
def normTail (c : Char) : Bool :=
  normHead c || ('0' ≤ c && c ≤ '9') || c = '_' || c = '-'

/-- Python `re.match` against a pattern of the shape `^h t+ $`: the string is
one `h` character followed by one or more `t` characters — except that
Python's `$` also matches just before a single trailing newline, so a string
ending in exactly one extra `'\n'` is accepted as well. -/
def reMatchHeadPlusDollar (h t : Char → Bool) (s : List Char) : Bool :=
  match s with
  | [] => false
  | c :: rest =>
    h c && ((!rest.isEmpty && rest.all t) ||
            (rest.getLast? == some '\n' && !rest.dropLast.isEmpty && rest.dropLast.all t))

/-- `re.match(pattern, self.name)` where `pattern` is selected by `impldef`. -/
def matchesNamePattern (impldef : Bool) (name : String) : Bool :=
  if impldef then reMatchHeadPlusDollar implHead implTail name.toList
  else reMatchHeadPlusDollar normHead normTail name.toList

/-- `check_kind`: fatal if the kind is not recognized. -/
def check_kind (kind : String) (nrName : String) : Except ConstructErr Unit :=
  if KINDS.contains kind then .ok () else .error (.badKind kind nrName)

/-- `check_impldef_cat`: fatal if the category is not recognized. -/
def check_impldef_cat (cat : String) (nrName : String) : Except ConstructErr Unit :=
  if IMPLDEF_CATEGORIES.contains cat then .ok () else .error (.badImpldefCat cat nrName)

/-- Holds one normative rule definition. -/
structure NormativeRuleDef where
  name : String
  def_filename : String
  chapter_name : String
  summary : Option String
  note : Option String
  clarification_link : Option String
  clarification_text : Option String
  description : Option String
  kind : Option String
  impldef : Bool
  impldef_cat : Option String
  instances : List PyVal
  tag_refs : List TagRef

/-- The fields of a `NormativeRuleDef` that are parsed out of `data` (the
rule name and provenance are passed through unchanged by `__init__`). -/
structure RuleFields where
  summary : Option String
  note : Option String
  clarification_link : Option String
  clarification_text : Option String
  description : Option String
  kind : Option String
  impldef : Bool
  impldef_cat : Option String
  instances : List PyVal
  tag_refs : List TagRef

def RuleFields.toRule (f : RuleFields) (name def_filename chapter_name : String) :
    NormativeRuleDef :=
  { name := name, def_filename := def_filename, chapter_name := chapter_name,
    summary := f.summary, note := f.note,
    clarification_link := f.clarification_link,
    clarification_text := f.clarification_text,
    description := f.description, kind := f.kind, impldef := f.impldef,
    impldef_cat := f.impldef_cat, instances := f.instances,
    tag_refs := f.tag_refs }

/-- The shared shape of the optional free-text fields: `data.get(key)` must be
absent, `None`, or a string. -/
def getStrField (data : List (String × PyVal)) (key field nrName : String) :
    Except ConstructErr (Option String) :=
  match pyGetOpt data key with
  | Option.none => .ok Option.none
  | some v =>
    match v with
    | .str s => .ok (some s)
    | _ => .error (.fieldTypeErr (pyTypeName v) field nrName)

/-- Python iteration over a value (`list(...)` semantics for the shapes the
tool can meet): lists yield their elements, strings their characters, dicts
their keys; anything else raises `TypeError`. -/
def pyIterate (what : String) : PyVal → Except ConstructErr (List PyVal)
  | .list l => .ok l
  | .str s => .ok (s.toList.map fun ch => PyVal.str (String.mk [ch]))
  | .dict entries => .ok (entries.map fun p => PyVal.str p.1)
  | _ => .error (.pyTypeError what)

/-- `NormativeRuleDef.__init__` up to (but not including) the final name
pattern check, in source order: optional string fields, `kind` (with enum
check), `impl-def-behavior`, `impl-def-category` (enum check first, then the
`is_impl_def` requirement), the `instance`/`instances` merge and the
instances-require-kind check, then the `tag`/`tags` reference parsing. -/
def mkFields (name : String)
    (data : List (String × PyVal)) : Except ConstructErr RuleFields := do
  let summary ← getStrField data "summary" "summary" name
  let note ← getStrField data "note" "note" name
  let clarification_link ← getStrField data "clarification-link" "clarification_link" name
  let clarification_text ← getStrField data "clarification-text" "clarification_text" name
  let description ← getStrField data "description" "description" name
  let kind ← getStrField data "kind" "kind" name
  match kind with
  | some k => check_kind k name
  | Option.none => pure ()
  let impldef ←
    match pyGet data "impl-def-behavior" with
    | Option.none => pure false
    | some v =>
      match v with
      | .bool b => pure b
      | _ => .error (.fieldTypeErr (pyTypeName v) "impl-def-behavior" name)
  let impldef_cat ← getStrField data "impl-def-category" "impldef_cat" name
  match impldef_cat with
  | some c => do
    check_impldef_cat c name
    if !impldef then .error (.catWithoutImpldef name) else pure ()
  | Option.none => pure ()
  let instances0 : List PyVal :=
    match pyGetOpt data "instance" with
    | some v => [v]
    | Option.none => []
  let instances ←
    match pyGetOpt data "instances" with
    | some v => do
      let elems ← pyIterate "extend of non-iterable instances" v
      pure (instances0 ++ elems)
    | Option.none => pure instances0
  -- `if self.kind is None: if self.instances: fatal(...)`; the `else` branch
  -- re-checks `isinstance(self.instances, list)`, which always holds here.
  if kind.isNone && !instances.isEmpty then
    .error (.instancesWithoutKind name)
  let tagRefs0 : List TagRef ←
    match pyGetOpt data "tag" with
    | some v => do
      let r ← TagRef.make v (.bool false)
      pure [r]
    | Option.none => pure []
  let tagItems ←
    match pyGetOpt data "tags" with
    | some v => pyIterate "iteration over non-iterable tags" v
    | Option.none => pure []
  let extraRefs ← tagItems.mapM fun td =>
    match td with
    | .str s => TagRef.make (.str s) (.bool false)
    | .dict entries =>
      match pyGetOpt entries "name" with
      | Option.none => .error (.tagRefMissingName name)
      | some nv =>
        let context :=
          match pyGet entries "context" with
          | Option.none => PyVal.bool false
          | some cv => cv
        TagRef.make nv context
    | _ => .error (.tagRefBadType name (pyTypeName td))
  pure { summary := summary, note := note,
         clarification_link := clarification_link,
         clarification_text := clarification_text,
         description := description, kind := kind, impldef := impldef,
         impldef_cat := impldef_cat, instances := instances,
         tag_refs := tagRefs0 ++ extraRefs }

/-- `NormativeRuleDef.__init__`: all field checks of `mkFields`, then the
final name validation against the pattern selected by `impldef`. -/
def mkNormativeRuleDef (name def_filename chapter_name : String)
    (data : List (String × PyVal)) : Except ConstructErr NormativeRuleDef :=
  match mkFields name data with
  | .error e => .error e
  | .ok flds =>
    if matchesNamePattern flds.impldef name then
      .ok (flds.toRule name def_filename chapter_name)
    else .error (.nameMismatch name
      (if flds.impldef then IMPLDEF_NAME_PATTERN else NORM_RULE_NAME_PATTERN))

/-! ## Normative tags and the cross-reference validator -/

/-- Holds all information for one tag. -/
structure NormativeTag where
  name : String
  tag_filename : String
  text : String
  deriving DecidableEq, Repr

/-- The tag store (`NormativeTags.tag_map`) in insertion order; name
uniqueness is enforced by `add_tags` at load time. -/
abbrev TagStore := List NormativeTag

/-- `NormativeTags.get_tag`: lookup by tag name, `None` if not found. -/
def get_tag (tags : TagStore) (name : String) : Option NormativeTag :=
  tags.find? (fun t => t.name == name)

/-- Strip a literal prefix, returning the remainder. -/
def stripLit (p l : List Char) : Option (List Char) :=
  if p.isPrefixOf l then some (l.drop p.length) else Option.none

/-- The `.+/issues/[0-9]+$` tail of the clarification-link pattern: a
non-empty newline-free segment, the literal `/issues/`, then one or more
digits; `$` also matches just before a single trailing newline. -/
def clarLinkTail (t : List Char) : Bool :=
  let t' := if t.getLast? == some '\n' then t.dropLast else t
  (List.range (t'.length + 1)).any (fun i =>
    0 < i &&
    (t'.take i).all (fun c => c ≠ '\n') &&
    "/issues/".toList.isPrefixOf (t'.drop i) &&
    (let ds := (t'.drop i).drop 8
     !ds.isEmpty && ds.all Char.isDigit))

/-- `re.match(r'^https://(www\.)?github\.com/riscv/.+/issues/[0-9]+$', link)`.
The two alternatives of the optional `www.` group can never both apply
(`www.` and `github.com/...` differ in their first character), so trying the
group only when the literal `www.` is present is equivalent to backtracking. -/
def clarLinkMatches (link : String) : Bool :=
  match stripLit "https://".toList link.toList with
  | Option.none => false
  | some r =>
    match stripLit "www.".toList r with
    | some r2 =>
      match stripLit "github.com/riscv/".toList r2 with
      | some t => clarLinkTail t
      | Option.none => false
    | Option.none =>
      match stripLit "github.com/riscv/".toList r with
      | some t => clarLinkTail t
      | Option.none => false

/-- Python `str.startswith(p)`. -/
def pyStartswith (s p : String) : Bool := p.toList.isPrefixOf s.toList

/-- The structured counterparts of the messages recorded by
`validate_defs_and_tags` via `error(...)` (or `info(...)` in lenient mode). -/
inductive VErr where
  /-- `Normative rule <rule> references non-existent tag <tag> in file <file>`. -/
  | missingTag (ruleName tagName fname : String)
  /-- `Normative rule <rule> starts with "norm:" prefix.` -/
  | badRuleName (ruleName : String)
  /-- `Normative rule <rule> has clarification-text but no clarification-link`. -/
  | clarTextNoLink (ruleName : String)
  /-- `Normative rule <rule> clarification-link of '<link>' doesn't look like a RISC-V GitHub issue link`. -/
  | clarBadLink (ruleName link : String)
  /-- `Tag <tag> not referenced by any normative rule.` -/
  | unrefTag (tagName : String)
  /-- `<n> reference(s) to non-existing tags`. -/
  | sumMissing (n : Nat)
  /-- `<n> illegal normative rule name(s)`. -/
  | sumBadNames (n : Nat)
  /-- `<n> tag(s) have no normative rules referencing them`. -/
  | sumUnref (n : Nat)
  deriving DecidableEq, Repr

/-- The mutable state of the first loop of `validate_defs_and_tags`:
`missing_tag_cnt`, `bad_norm_rule_name_cnt`, the keys of `referenced_tags`,
and the `error(...)` log so far. -/
structure DefsLoopState where
  missing : Nat
  bad : Nat
  referenced : List String
  errors : List VErr
  deriving Repr

/-- The body of `for tag_ref in d.tag_refs`: resolve against the tag store,
recording an error for a dangling reference and the tag name otherwise. -/
def tagRefStep (tags : TagStore) (d : NormativeRuleDef)
    (st : DefsLoopState) (r : TagRef) : DefsLoopState :=
  match get_tag tags r.name with
  | Option.none =>
    { st with missing := st.missing + 1,
              errors := st.errors ++ [.missingTag d.name r.name d.def_filename] }
  | some tag => { st with referenced := st.referenced ++ [tag.name] }

/-- The body of `for d in defs.norm_rule_defs`: tag-reference resolution, the
reserved-name check, and the two clarification checks, in source order. -/
def defStep (tags : TagStore) (st : DefsLoopState) (d : NormativeRuleDef) :
    DefsLoopState :=
  let st := d.tag_refs.foldl (tagRefStep tags d) st
  let st :=
    if pyStartswith d.name "norm:" then
      { st with bad := st.bad + 1, errors := st.errors ++ [.badRuleName d.name] }
    else st
  let st :=
    match d.clarification_text, d.clarification_link with
    | some _, Option.none => { st with errors := st.errors ++ [.clarTextNoLink d.name] }
    | _, _ => st
  match d.clarification_link with
  | some l =>
    if !clarLinkMatches l then { st with errors := st.errors ++ [.clarBadLink d.name l] }
    else st
  | Option.none => st

/-- The result of `validate_defs_and_tags`: the three tallies, the
`referenced_tags` keys, the error and info logs, and whether the run is
terminated by the final `fatal("Exiting due to errors")`. -/
structure ValidationResult where
  missing_tag_cnt : Nat
  bad_norm_rule_name_cnt : Nat
  unref_cnt : Nat
  referenced_tags : List String
  errors : List VErr
  infos : List VErr
  fails : Bool
  deriving Repr

/-- `validate_defs_and_tags(defs, tags, warn_if_tags_no_rules)`. -/
def validate_defs_and_tags (defs : List NormativeRuleDef) (tags : TagStore)
    (warn_if_tags_no_rules : Bool) : ValidationResult :=
  let st := defs.foldl (defStep tags) ⟨0, 0, [], []⟩
  let unrefTags := tags.filter (fun t => !st.referenced.contains t.name)
  let unref_cnt := unrefTags.length
  let unrefMsgs : List VErr := unrefTags.map (fun t => .unrefTag t.name)
  let errors := st.errors ++
    (if warn_if_tags_no_rules then [] else unrefMsgs) ++
    (if 0 < st.missing then [.sumMissing st.missing] else []) ++
    (if 0 < st.bad then [.sumBadNames st.bad] else []) ++
    (if 0 < unref_cnt && !warn_if_tags_no_rules then [.sumUnref unref_cnt] else [])
  let infos :=
    (if warn_if_tags_no_rules then unrefMsgs else []) ++
    (if 0 < unref_cnt && warn_if_tags_no_rules then [.sumUnref unref_cnt] else [])
  { missing_tag_cnt := st.missing,
    bad_norm_rule_name_cnt := st.bad,
    unref_cnt := unref_cnt,
    referenced_tags := st.referenced,
    errors := errors,
    infos := infos,
    fails := 0 < st.missing || 0 < st.bad || (0 < unref_cnt && !warn_if_tags_no_rules) }

/-! ### Specification-level descriptions of the validator tallies -/

/-- Number of tag references that do not resolve in the tag store. -/
def missingTagCount (defs : List NormativeRuleDef) (tags : TagStore) : Nat :=
  (defs.map (fun d => d.tag_refs.countP (fun r => (get_tag tags r.name).isNone))).sum

/-- Number of rules whose name starts with the reserved `"norm:"` prefix. -/
def badNameCount (defs : List NormativeRuleDef) : Nat :=
  defs.countP (fun d => pyStartswith d.name "norm:")

/-- A tag is referenced when some rule holds a tag reference by its name. -/
def tagReferenced (defs : List NormativeRuleDef) (t : NormativeTag) : Bool :=
  defs.any (fun d => d.tag_refs.any (fun r => r.name == t.name))

/-- Number of tags in the store that no rule references. -/
def unrefCount (defs : List NormativeRuleDef) (tags : TagStore) : Nat :=
  tags.countP (fun t => !tagReferenced defs t)


/-- The names recorded into `referenced_tags` while processing one rule. -/
def ruleRefs (tags : TagStore) (d : NormativeRuleDef) : List String :=
  d.tag_refs.filterMap (fun r => (get_tag tags r.name).map NormativeTag.name)

/-- The errors recorded while processing one rule, in source order. -/
def ruleErrs (tags : TagStore) (d : NormativeRuleDef) : List VErr :=
  d.tag_refs.filterMap (fun r =>
    match get_tag tags r.name with
    | Option.none => some (.missingTag d.name r.name d.def_filename)
    | some _ => Option.none) ++
  (if pyStartswith d.name "norm:" then [.badRuleName d.name] else []) ++
  (match d.clarification_text, d.clarification_link with
   | some _, Option.none => [.clarTextNoLink d.name]
   | _, _ => []) ++
  (match d.clarification_link with
   | some l => if !clarLinkMatches l then [.clarBadLink d.name l] else []
   | Option.none => [])

theorem foldl_tagRefStep (tags : TagStore) (d : NormativeRuleDef)
    (refs : List TagRef) (st : DefsLoopState) :
    refs.foldl (tagRefStep tags d) st =
      { missing := st.missing + refs.countP (fun r => (get_tag tags r.name).isNone),
        bad := st.bad,
        referenced := st.referenced ++
          refs.filterMap (fun r => (get_tag tags r.name).map NormativeTag.name),
        errors := st.errors ++ refs.filterMap (fun r =>
          match get_tag tags r.name with
          | Option.none => some (.missingTag d.name r.name d.def_filename)
          | some _ => Option.none) } := by
  induction refs generalizing st with
  | nil => cases st; simp
  | cons r rs ih =>
    simp only [List.foldl_cons, ih, tagRefStep]
    cases h : get_tag tags r.name with
    | none =>
      simp [h, List.countP_cons, Option.isNone]
      omega
    | some tag =>
      simp [h, List.countP_cons, Option.isNone]

theorem defStep_eq (tags : TagStore) (st : DefsLoopState) (d : NormativeRuleDef) :
    defStep tags st d =
      { missing := st.missing + d.tag_refs.countP (fun r => (get_tag tags r.name).isNone),
        bad := st.bad + (if pyStartswith d.name "norm:" then 1 else 0),
        referenced := st.referenced ++ ruleRefs tags d,
        errors := st.errors ++ ruleErrs tags d } := by
  unfold defStep ruleErrs ruleRefs
  rw [foldl_tagRefStep]
  rcases hb : pyStartswith d.name "norm:" with _ | _ <;>
  rcases ht : d.clarification_text with _ | t <;>
  rcases hl : d.clarification_link with _ | l <;>
  simp [hb, ht, hl] <;>
  rcases hm : clarLinkMatches l with _ | _ <;>
  simp [hm]

theorem foldl_defStep (tags : TagStore) (defs : List NormativeRuleDef)
    (st : DefsLoopState) :
    defs.foldl (defStep tags) st =
      { missing := st.missing + missingTagCount defs tags,
        bad := st.bad + badNameCount defs,
        referenced := st.referenced ++ defs.flatMap (ruleRefs tags),
        errors := st.errors ++ defs.flatMap (ruleErrs tags) } := by
  induction defs generalizing st with
  | nil => cases st; simp [missingTagCount, badNameCount]
  | cons d ds ih =>
    simp only [List.foldl_cons, defStep_eq, ih, missingTagCount, badNameCount,
      List.map_cons, List.sum_cons, List.countP_cons, List.flatMap_cons,
      DefsLoopState.mk.injEq]
    refine ⟨by omega, by split <;> omega, by simp, by simp⟩

theorem mem_ruleRefs (tags : TagStore) (d : NormativeRuleDef) (n : String) :
    n ∈ ruleRefs tags d ↔
      ∃ r ∈ d.tag_refs, r.name = n ∧ (get_tag tags r.name).isSome := by
  unfold ruleRefs
  rw [List.mem_filterMap]
  constructor
  · rintro ⟨r, hr, hmap⟩
    rcases hgt : get_tag tags r.name with _ | tag
    · simp [hgt] at hmap
    · simp only [hgt, Option.map_some] at hmap
      have hname := List.find?_some hgt
      simp only [beq_iff_eq] at hname
      injection hmap with hmap
      exact ⟨r, hr, by rw [← hmap, hname], by simp [hgt]⟩
  · rintro ⟨r, hr, hn, hsome⟩
    subst hn
    rcases hgt : get_tag tags r.name with _ | tag
    · simp [hgt] at hsome
    · have hname := List.find?_some hgt
      simp only [beq_iff_eq] at hname
      exact ⟨r, hr, by rw [hgt]; simp [hname]⟩

theorem referenced_iff (tags : TagStore) (defs : List NormativeRuleDef)
    (t : NormativeTag) (ht : t ∈ tags) :
    (defs.flatMap (ruleRefs tags)).contains t.name = tagReferenced defs t := by
  rw [Bool.eq_iff_iff]
  simp only [List.contains_eq_any_beq, List.any_eq_true, tagReferenced,
    List.mem_flatMap, mem_ruleRefs, beq_iff_eq]
  constructor
  · rintro ⟨n, ⟨d, hd, r, hr, rfl, hsome⟩, hbeq⟩
    exact ⟨d, hd, r, hr, hbeq.symm⟩
  · rintro ⟨d, hd, r, hr, hbeq⟩
    refine ⟨t.name, ⟨d, hd, r, hr, hbeq, ?_⟩, rfl⟩
    rw [hbeq]
    simp only [get_tag, List.find?_isSome]
    exact ⟨t, ht, by simp⟩

theorem validate_missing (defs : List NormativeRuleDef) (tags : TagStore) (warn : Bool) :
    (validate_defs_and_tags defs tags warn).missing_tag_cnt = missingTagCount defs tags := by
  simp [validate_defs_and_tags, foldl_defStep]

theorem validate_bad (defs : List NormativeRuleDef) (tags : TagStore) (warn : Bool) :
    (validate_defs_and_tags defs tags warn).bad_norm_rule_name_cnt = badNameCount defs := by
  simp [validate_defs_and_tags, foldl_defStep]

theorem validate_unref (defs : List NormativeRuleDef) (tags : TagStore) (warn : Bool) :
    (validate_defs_and_tags defs tags warn).unref_cnt = unrefCount defs tags := by
  simp only [validate_defs_and_tags, foldl_defStep, unrefCount]
  simp only [List.nil_append, ← List.countP_eq_length_filter]
  exact List.countP_congr (fun t ht => by
    rw [referenced_iff tags defs t ht])

theorem validate_errors (defs : List NormativeRuleDef) (tags : TagStore) (warn : Bool) :
    ∃ rest, (validate_defs_and_tags defs tags warn).errors =
      defs.flatMap (ruleErrs tags) ++ rest := by
  simp only [validate_defs_and_tags, foldl_defStep, List.nil_append,
    List.append_assoc]
  exact ⟨_, rfl⟩

theorem validate_fails_iff (defs : List NormativeRuleDef) (tags : TagStore) (warn : Bool) :
    (validate_defs_and_tags defs tags warn).fails = true ↔
      0 < missingTagCount defs tags ∨ 0 < badNameCount defs ∨
        (0 < unrefCount defs tags ∧ warn = false) := by
  have hu := validate_unref defs tags warn
  simp only [validate_defs_and_tags, foldl_defStep, List.nil_append,
    Nat.zero_add] at hu ⊢
  rw [hu]
  rcases warn with _ | _ <;> simp
  tauto


/-! ### Facts about accepted rule names -/

/-- Every character of a name accepted by `reMatchHeadPlusDollar` satisfies
the head class, the tail class, or is the possibly-trailing newline. -/
theorem reMatch_chars (h t : Char → Bool) (s : List Char)
    (hm : reMatchHeadPlusDollar h t s = true) :
    ∀ c ∈ s, h c || t c || (c = '\n') := by
  match s with
  | [] => simp [reMatchHeadPlusDollar] at hm
  | c0 :: rest =>
    simp only [reMatchHeadPlusDollar, Bool.and_eq_true, Bool.or_eq_true] at hm
    obtain ⟨hc0, hrest⟩ := hm
    intro c hc
    rcases List.mem_cons.mp hc with rfl | hcr
    · simp [hc0]
    · rcases hrest with ⟨_, hall⟩ | ⟨⟨hlast, _⟩, hall⟩
      · have := List.all_eq_true.mp hall c hcr
        simp [this]
      · have hne : rest ≠ [] := by rintro rfl; simp at hcr
        have hsplit := List.dropLast_append_getLast hne
        rw [← hsplit] at hcr
        rcases List.mem_append.mp hcr with hdl | hl
        · have := List.all_eq_true.mp hall c hdl
          simp [this]
        · simp only [List.mem_singleton] at hl
          subst hl
          rw [List.getLast?_eq_getLast rest hne] at hlast
          simp only [beq_iff_eq, Option.some.injEq] at hlast
          simp [hlast]

/-- A name accepted by either rule-name pattern cannot start with the
reserved `"norm:"` prefix: no accepted character can be a colon. -/
theorem matchesNamePattern_not_norm (i : Bool) (n : String)
    (hm : matchesNamePattern i n = true) : pyStartswith n "norm:" = false := by
  by_contra hns
  rw [Bool.not_eq_false, pyStartswith] at hns
  have hpre := List.isPrefixOf_iff_prefix.mp hns
  obtain ⟨tl, htl⟩ := hpre
  have hcolon : ':' ∈ n.toList := by
    rw [← htl]; simp [String.toList]
  have hchars : ∀ c ∈ n.toList,
      (if i then implHead else normHead) c ||
      (if i then implTail else normTail) c || (c = '\n') := by
    rcases i with _ | _ <;>
      simpa [matchesNamePattern] using reMatch_chars _ _ n.toList (by simpa [matchesNamePattern] using hm)
  have hcls := hchars ':' hcolon
  rcases i with _ | _ <;> simp [implHead, implTail, normHead, normTail] at hcls

/-- A successful `NormativeRuleDef.__init__` returns a rule carrying the
given name, and that name passed the pattern selected by `impldef`. -/
theorem mk_ok_name {n fn ch : String} {data : List (String × PyVal)}
    {r : NormativeRuleDef} (h : mkNormativeRuleDef n fn ch data = .ok r) :
    r.name = n ∧ matchesNamePattern r.impldef n = true := by
  unfold mkNormativeRuleDef at h
  split at h
  · exact absurd h (by simp)
  · split at h
    next hp =>
      injection h with h
      subst h
      exact ⟨rfl, hp⟩
    next hp => exact absurd h (by simp)

/-- `VErr.badRuleName` only enters a rule error list for a reserved name. -/
theorem badRuleName_mem_ruleErrs {tags : TagStore} {d : NormativeRuleDef}
    {rn : String} (h : VErr.badRuleName rn ∈ ruleErrs tags d) :
    pyStartswith d.name "norm:" = true := by
  unfold ruleErrs at h
  rcases List.mem_append.mp h with h | h
  rcases List.mem_append.mp h with h | h
  rcases List.mem_append.mp h with h | h
  · rw [List.mem_filterMap] at h
    obtain ⟨r, _, hr⟩ := h
    rcases hgt : get_tag tags r.name with _ | _ <;> simp [hgt] at hr
  · by_cases hb : pyStartswith d.name "norm:"
    · exact hb
    · simp [hb] at h
  · rcases ht : d.clarification_text with _ | t <;>
      rcases hl : d.clarification_link with _ | l <;> simp [ht, hl] at h
  · rcases hl : d.clarification_link with _ | l
    · simp [hl] at h
    · rcases hv : clarLinkMatches l with _ | _ <;> simp [hl, hv] at h

/-- Every error logged by the validator is a per-rule error, an
unreferenced-tag report, or one of the three summary lines. -/
theorem validate_errors_shape (defs : List NormativeRuleDef) (tags : TagStore)
    (warn : Bool) (e : VErr)
    (he : e ∈ (validate_defs_and_tags defs tags warn).errors) :
    (∃ d ∈ defs, e ∈ ruleErrs tags d) ∨ (∃ tn, e = .unrefTag tn) ∨
    (∃ k, e = .sumMissing k) ∨ (∃ k, e = .sumBadNames k) ∨ (∃ k, e = .sumUnref k) := by
  simp only [validate_defs_and_tags, foldl_defStep, List.nil_append] at he
  rcases List.mem_append.mp he with h | h
  rcases List.mem_append.mp h with h | h
  rcases List.mem_append.mp h with h | h
  rcases List.mem_append.mp h with h | h
  · exact Or.inl (List.mem_flatMap.mp h)
  · rcases warn with _ | _ <;> simp at h
    · obtain ⟨t, _, ht⟩ := h
      exact Or.inr (Or.inl ⟨t.name, ht.symm⟩)
  · split at h <;> simp at h
    exact Or.inr (Or.inr (Or.inl ⟨_, h⟩))
  · split at h <;> simp at h
    exact Or.inr (Or.inr (Or.inr (Or.inl ⟨_, h⟩)))
  · split at h <;> simp at h
    exact Or.inr (Or.inr (Or.inr (Or.inr ⟨_, h⟩)))


/-! ### Claim theorems about the validator -/

/-- **C1.** For a fully loaded catalog, the cross-reference validator
terminates the run with failure (the final `fatal`, a non-zero exit) if and
only if the missing-tag count is positive, or the bad-name count is positive,
or the unreferenced-tag count is positive while lenient mode is off; in every
other case validation returns normally. -/
theorem validator_gate_iff (defs : List NormativeRuleDef) (tags : TagStore)
    (warn_if_tags_no_rules : Bool) :
    (validate_defs_and_tags defs tags warn_if_tags_no_rules).fails = true ↔
      0 < missingTagCount defs tags ∨ 0 < badNameCount defs ∨
        (0 < unrefCount defs tags ∧ warn_if_tags_no_rules = false) :=
  validate_fails_iff defs tags warn_if_tags_no_rules

/-- A rule violating the clarification invariant: `clarification-text`
without `clarification-link`, or a link that fails the issue-tracker
pattern. -/
def clarViolation (d : NormativeRuleDef) : Prop :=
  (d.clarification_text.isSome ∧ d.clarification_link = Option.none) ∨
  (∃ l, d.clarification_link = some l ∧ clarLinkMatches l = false)

/-- Claim C3 as stated: a clarification violation always gates the run. -/
def clarViolationsGateClaim : Prop :=
  ∀ (defs : List NormativeRuleDef) (tags : TagStore) (warn : Bool),
    (∃ d ∈ defs, clarViolation d) →
    (validate_defs_and_tags defs tags warn).fails = true

/-- A rule whose only defect is a clarification text without a link. -/
def exampleClarRule : NormativeRuleDef :=
  { name := "quiet-rule", def_filename := "rules.yaml", chapter_name := "ch1",
    summary := Option.none, note := Option.none,
    clarification_link := Option.none,
    clarification_text := some "pending clarification",
    description := Option.none, kind := Option.none, impldef := false,
    impldef_cat := Option.none, instances := [], tag_refs := [] }

/-- **C3 (counterexample).** A catalog whose only defect is a clarification
violation passes validation even in strict mode: the violation is reported
as an error but never gates the run, refuting the claim. -/
theorem clar_violation_does_not_gate_cex : ¬ clarViolationsGateClaim := by
  intro hclaim
  have h := hclaim [exampleClarRule] [] false
    ⟨exampleClarRule, by simp, Or.inl ⟨by simp [exampleClarRule], rfl⟩⟩
  have hf : (validate_defs_and_tags [exampleClarRule] [] false).fails = false := by rfl
  rw [hf] at h
  exact absurd h (by simp)

/-- **C3 (amended).** Clarification violations are reported as errors
regardless of lenient mode, but they do not gate the run: the overall pass
fails exactly under the missing-tag / bad-name / unreferenced-tag condition,
which never mentions the clarification fields. -/
theorem clar_violations_error_but_never_gate
    (defs : List NormativeRuleDef) (tags : TagStore) (warn : Bool)
    (d : NormativeRuleDef) (hd : d ∈ defs) :
    ((d.clarification_text.isSome ∧ d.clarification_link = Option.none) →
      VErr.clarTextNoLink d.name ∈ (validate_defs_and_tags defs tags warn).errors) ∧
    (∀ l, d.clarification_link = some l → clarLinkMatches l = false →
      VErr.clarBadLink d.name l ∈ (validate_defs_and_tags defs tags warn).errors) ∧
    ((validate_defs_and_tags defs tags warn).fails = true ↔
      0 < missingTagCount defs tags ∨ 0 < badNameCount defs ∨
        (0 < unrefCount defs tags ∧ warn = false)) := by
  obtain ⟨rest, hrest⟩ := validate_errors defs tags warn
  refine ⟨?_, ?_, validate_fails_iff defs tags warn⟩
  · rintro ⟨ht, hl⟩
    rw [hrest]
    apply List.mem_append_left
    rw [List.mem_flatMap]
    refine ⟨d, hd, ?_⟩
    rcases htx : d.clarification_text with _ | tx
    · rw [htx] at ht; simp at ht
    · unfold ruleErrs
      simp [htx, hl]
  · intro l hl hv
    rw [hrest]
    apply List.mem_append_left
    rw [List.mem_flatMap]
    refine ⟨d, hd, ?_⟩
    unfold ruleErrs
    simp [hl, hv]

/-- Witness for the amended C3 at a concrete catalog. -/
theorem clar_violations_error_but_never_gate_witness :
    VErr.clarTextNoLink "quiet-rule" ∈
      (validate_defs_and_tags [exampleClarRule] [] false).errors :=
  (clar_violations_error_but_never_gate [exampleClarRule] [] false
      exampleClarRule (by simp)).1 ⟨by simp [exampleClarRule], rfl⟩

/-- **C8.** Every rule built by `NormativeRuleDef.__init__` has a name
matching one of the two patterns, neither of which admits a colon, so no
constructed rule name starts with the reserved `"norm:"` prefix; over any
catalog of constructed rules the validator records a zero bad-name count and
never logs a bad-name error. -/
theorem constructed_rules_have_no_reserved_names
    (defs : List NormativeRuleDef) (tags : TagStore) (warn : Bool)
    (hc : ∀ d ∈ defs, ∃ n fn ch data, mkNormativeRuleDef n fn ch data = .ok d) :
    (∀ d ∈ defs, pyStartswith d.name "norm:" = false) ∧
    badNameCount defs = 0 ∧
    (validate_defs_and_tags defs tags warn).bad_norm_rule_name_cnt = 0 ∧
    ∀ rn, VErr.badRuleName rn ∉ (validate_defs_and_tags defs tags warn).errors := by
  have hnb : ∀ d ∈ defs, pyStartswith d.name "norm:" = false := by
    intro d hd
    obtain ⟨n, fn, ch, data, hmk⟩ := hc d hd
    obtain ⟨hname, hpat⟩ := mk_ok_name hmk
    rw [hname]
    exact matchesNamePattern_not_norm _ _ hpat
  have hbc : badNameCount defs = 0 := by
    unfold badNameCount
    rw [List.countP_eq_zero]
    intro d hd
    simp [hnb d hd]
  refine ⟨hnb, hbc, ?_, ?_⟩
  · rw [validate_bad]; exact hbc
  · intro rn hmem
    rcases validate_errors_shape defs tags warn _ hmem with
      ⟨d, hd, hre⟩ | ⟨tn, h⟩ | ⟨k, h⟩ | ⟨k, h⟩ | ⟨k, h⟩
    · exact absurd (badRuleName_mem_ruleErrs hre) (by simp [hnb d hd])
    all_goals simp at h

/-- A rule as produced by a successful construction from an empty data
record. -/
def exampleOkRule : NormativeRuleDef :=
  { name := "good_rule", def_filename := "rules.yaml", chapter_name := "ch1",
    summary := Option.none, note := Option.none,
    clarification_link := Option.none, clarification_text := Option.none,
    description := Option.none, kind := Option.none, impldef := false,
    impldef_cat := Option.none, instances := [], tag_refs := [] }

/-- Witness for C8 at a concrete constructed catalog. -/
theorem constructed_rules_have_no_reserved_names_witness :
    (∀ d ∈ [exampleOkRule], ∃ n fn ch data, mkNormativeRuleDef n fn ch data = .ok d) ∧
    badNameCount [exampleOkRule] = 0 ∧
    (validate_defs_and_tags [exampleOkRule] [] false).bad_norm_rule_name_cnt = 0 := by
  have hc : ∀ d ∈ [exampleOkRule], ∃ n fn ch data, mkNormativeRuleDef n fn ch data = .ok d := by
    intro d hd
    rw [List.mem_singleton] at hd
    subst hd
    exact ⟨"good_rule", "rules.yaml", "ch1", [], by rfl⟩
  have h := constructed_rules_have_no_reserved_names [exampleOkRule] [] false hc
  exact ⟨hc, h.2.1, h.2.2.1⟩


/-- `Except` bind on a success reduces to the continuation. -/
theorem exceptBind_ok {ε α β : Type} (a : α) (f : α → Except ε β) :
    (Except.ok a >>= f) = f a := rfl

/-- `Except` bind on an error short-circuits. -/
theorem exceptBind_error {ε α β : Type} (e : ε) (f : α → Except ε β) :
    ((Except.error e : Except ε α) >>= f) = .error e := rfl

/-- `pure` into `Except` is `ok`. -/
theorem exceptPure {ε α : Type} (a : α) : (pure a : Except ε α) = .ok a := rfl

/-- Inversion for a successful `Except` bind. -/
theorem exceptBind_ok_inv {ε α β : Type} {x : Except ε α} {f : α → Except ε β}
    {b : β} (h : (x >>= f) = .ok b) : ∃ a, x = .ok a ∧ f a = .ok b := by
  cases x with
  | error e => rw [exceptBind_error] at h; exact absurd h (by simp)
  | ok a => exact ⟨a, rfl, by rwa [exceptBind_ok] at h⟩

/-- The optional free-text fields accept exactly absence, `None`, or a
string. -/
def strFieldOk (data : List (String × PyVal)) (key : String) : Prop :=
  pyGetOpt data key = Option.none ∨ ∃ s, pyGetOpt data key = some (PyVal.str s)

theorem getStrField_shape {data : List (String × PyVal)} {key f n : String}
    (h : strFieldOk data key) : ∃ o, getStrField data key f n = .ok o := by
  rcases h with h | ⟨s, h⟩
  · exact ⟨Option.none, by simp [getStrField, h]⟩
  · exact ⟨some s, by simp [getStrField, h]⟩

/-! ### Claim theorems about rule construction (C4, C5, C9) -/

/-- Claim C4 as stated: for an entry with `impl-def-category` set to a string
outside the enum while `impl-def-behavior` is false, the failure reported is
the requires-`is_impl_def` violation rather than the enum-membership one. -/
def catRequiresImpldefFirstClaim : Prop :=
  ∀ (name fn ch : String) (data : List (String × PyVal)) (c : String),
    pyGetOpt data "impl-def-category" = some (PyVal.str c) →
    c ∉ IMPLDEF_CATEGORIES →
    pyGet data "impl-def-behavior" = some (PyVal.bool false) →
    mkNormativeRuleDef name fn ch data = .error (.catWithoutImpldef name)

/-- **C4 (counterexample).** On `impl-def-category: "BOGUS"` with
`impl-def-behavior: false`, construction reports the enum-membership
violation, not the requires-`is_impl_def` violation. -/
theorem cat_enum_before_requires_cex : ¬ catRequiresImpldefFirstClaim := by
  intro hclaim
  have h := hclaim "abc" "f.yaml" "ch"
    [("impl-def-behavior", PyVal.bool false), ("impl-def-category", PyVal.str "BOGUS")]
    "BOGUS" (by rfl) (by decide) (by rfl)
  rw [show mkNormativeRuleDef "abc" "f.yaml" "ch"
      [("impl-def-behavior", PyVal.bool false), ("impl-def-category", PyVal.str "BOGUS")]
      = .error (.badImpldefCat "BOGUS" "abc") from rfl] at h
  exact absurd h (by simp)

/-- **C4 (amended).** The enum-membership check for `impl-def-category` runs
before the requires-`is_impl_def` check: whenever the earlier fields are
well-shaped and the category is a string outside the enum, construction
fails with the enum-membership violation, whatever `impl-def-behavior` is. -/
theorem cat_enum_checked_before_requires_impldef
    (name fn ch : String) (data : List (String × PyVal)) (c : String)
    (hsum : strFieldOk data "summary") (hnote : strFieldOk data "note")
    (hclk : strFieldOk data "clarification-link")
    (hclt : strFieldOk data "clarification-text")
    (hdesc : strFieldOk data "description")
    (hkind : pyGetOpt data "kind" = Option.none ∨
      ∃ k, pyGetOpt data "kind" = some (PyVal.str k) ∧ k ∈ KINDS)
    (hb : pyGet data "impl-def-behavior" = Option.none ∨
      ∃ b, pyGet data "impl-def-behavior" = some (PyVal.bool b))
    (hcat : pyGetOpt data "impl-def-category" = some (PyVal.str c))
    (hc : c ∉ IMPLDEF_CATEGORIES) :
    mkNormativeRuleDef name fn ch data = .error (.badImpldefCat c name) := by
  obtain ⟨o1, h1⟩ := @getStrField_shape data "summary" "summary" name hsum
  obtain ⟨o2, h2⟩ := @getStrField_shape data "note" "note" name hnote
  obtain ⟨o3, h3⟩ := @getStrField_shape data "clarification-link" "clarification_link" name hclk
  obtain ⟨o4, h4⟩ := @getStrField_shape data "clarification-text" "clarification_text" name hclt
  obtain ⟨o5, h5⟩ := @getStrField_shape data "description" "description" name hdesc
  have hcat' : getStrField data "impl-def-category" "impldef_cat" name = .ok (some c) := by
    simp [getStrField, hcat]
  rcases hkind with hk | ⟨k, hk, hkmem⟩
  · have hk' : getStrField data "kind" "kind" name = .ok Option.none := by
      simp [getStrField, hk]
    rcases hb with hbn | ⟨b, hbn⟩ <;>
      simp [mkNormativeRuleDef, mkFields, check_kind, check_impldef_cat,
        h1, h2, h3, h4, h5, hk', hbn, hcat', hc,
        exceptBind_ok, exceptBind_error, exceptPure]
  · have hk' : getStrField data "kind" "kind" name = .ok (some k) := by
      simp [getStrField, hk]
    rcases hb with hbn | ⟨b, hbn⟩ <;>
      simp [mkNormativeRuleDef, mkFields, check_kind, check_impldef_cat,
        h1, h2, h3, h4, h5, hk', hkmem, hbn, hcat', hc,
        exceptBind_ok, exceptBind_error, exceptPure]

/-- Witness for the amended C4 at a concrete entry. -/
theorem cat_enum_checked_before_requires_impldef_witness :
    mkNormativeRuleDef "abc" "f.yaml" "ch"
      [("impl-def-behavior", PyVal.bool true), ("impl-def-category", PyVal.str "WARP")]
      = .error (.badImpldefCat "WARP" "abc") :=
  cat_enum_checked_before_requires_impldef "abc" "f.yaml" "ch"
    [("impl-def-behavior", PyVal.bool true), ("impl-def-category", PyVal.str "WARP")]
    "WARP" (Or.inl rfl) (Or.inl rfl) (Or.inl rfl) (Or.inl rfl) (Or.inl rfl)
    (Or.inl rfl) (Or.inr ⟨true, rfl⟩) rfl (by decide)


/-- Modelled from the spec: the language of an anchored pattern `^h t+$`
read as a plain regular expression — one head-class character followed by
one or more tail-class characters, and nothing else. -/
def inRegexLang (h t : Char → Bool) (s : List Char) : Bool :=
  match s with
  | [] => false
  | c :: rest => h c && !rest.isEmpty && rest.all t

/-- Python `re.match` of `^h t+$` accepts exactly the anchored-regex
language plus the same words with a single extra trailing newline. -/
theorem reMatch_iff_lang (h t : Char → Bool) (s : List Char) :
    reMatchHeadPlusDollar h t s = true ↔
      (inRegexLang h t s = true ∨
        ∃ u, s = u ++ ['\n'] ∧ inRegexLang h t u = true) := by
  cases s with
  | nil =>
    simp only [reMatchHeadPlusDollar, inRegexLang]
    constructor
    · intro hf; exact absurd hf (by simp)
    · rintro (hf | ⟨u, hu, _⟩)
      · exact absurd hf (by simp)
      · exact absurd hu (by simp)
  | cons c rest =>
    simp only [reMatchHeadPlusDollar, inRegexLang, Bool.and_eq_true, Bool.or_eq_true,
      Bool.not_eq_eq_eq_not, Bool.not_true, List.isEmpty_eq_false]
    constructor
    · rintro ⟨hc, hrest⟩
      rcases hrest with ⟨hne, hall⟩ | ⟨⟨hlast, hne⟩, hall⟩
      · exact Or.inl ⟨⟨hc, hne⟩, hall⟩
      · right
        have hne' : rest ≠ [] := by
          rintro rfl; simp at hlast
        refine ⟨c :: rest.dropLast, ?_, ?_⟩
        · have hsplit := List.dropLast_append_getLast hne'
          have hlast' : rest.getLast hne' = '\n' := by
            rw [List.getLast?_eq_getLast rest hne'] at hlast
            simp only [beq_iff_eq, Option.some.injEq] at hlast
            exact hlast
          rw [← hlast', List.cons_append, hsplit]
        · simp only [inRegexLang, Bool.and_eq_true, Bool.not_eq_eq_eq_not,
            Bool.not_true, List.isEmpty_eq_false]
          exact ⟨⟨hc, hne⟩, hall⟩
    · rintro (⟨⟨hc, hne⟩, hall⟩ | ⟨u, hu, hlang⟩)
      · exact ⟨hc, Or.inl ⟨hne, hall⟩⟩
      · cases u with
        | nil => simp [inRegexLang] at hlang
        | cons uc urest =>
          rw [List.cons_append] at hu
          injection hu with hu1 hu2
          subst hu1
          subst hu2
          simp only [inRegexLang, Bool.and_eq_true, Bool.not_eq_eq_eq_not,
            Bool.not_true, List.isEmpty_eq_false] at hlang
          obtain ⟨⟨hc, hne⟩, hall⟩ := hlang
          refine ⟨hc, Or.inr ⟨⟨?_, ?_⟩, ?_⟩⟩
          · rw [List.getLast?_concat]
            rfl
          · rw [List.dropLast_concat]
            simp [hne]
          · rw [List.dropLast_concat]
            exact hall

/-- A successful field parse turns `__init__` into exactly the final
name-pattern test. -/
theorem mk_isOk_eq {name fn ch : String} {data : List (String × PyVal)}
    {flds : RuleFields} (hf : mkFields name data = .ok flds) :
    (mkNormativeRuleDef name fn ch data).isOk = matchesNamePattern flds.impldef name := by
  unfold mkNormativeRuleDef
  rw [hf]
  by_cases hp : matchesNamePattern flds.impldef name <;>
    simp [hp, Except.isOk, Except.toBool]

/-- Claim C5 as stated: with all other fields valid, acceptance is exactly
membership in the language of the anchored pattern selected by
`is_impl_def`. -/
def namePatternLanguageClaim : Prop :=
  ∀ (name fn ch : String) (data : List (String × PyVal)) (flds : RuleFields),
    mkFields name data = .ok flds →
    ((mkNormativeRuleDef name fn ch data).isOk = true ↔
      (if flds.impldef then inRegexLang implHead implTail name.toList
       else inRegexLang normHead normTail name.toList) = true)

/-- The parsed fields of the minimal implementation-defined entry. -/
def exampleImplFields : RuleFields :=
  { summary := Option.none, note := Option.none,
    clarification_link := Option.none, clarification_text := Option.none,
    description := Option.none, kind := Option.none, impldef := true,
    impldef_cat := Option.none, instances := [], tag_refs := [] }

/-- **C5 (counterexample).** The name `"AB\n"` — a name with trailing
whitespace, outside the language of `^[A-Z][A-Z0-9_]+$` — is nevertheless
accepted, because Python's `re.match` lets `$` match before a single
trailing newline. -/
theorem name_trailing_newline_accepted_cex : ¬ namePatternLanguageClaim := by
  intro hclaim
  have h := hclaim "AB\n" "f.yaml" "ch" [("impl-def-behavior", PyVal.bool true)]
    exampleImplFields (by rfl)
  rw [show (mkNormativeRuleDef "AB\n" "f.yaml" "ch"
      [("impl-def-behavior", PyVal.bool true)]).isOk = true from rfl] at h
  have hfalse := h.mp rfl
  rw [show (if exampleImplFields.impldef then
      inRegexLang implHead implTail "AB\n".toList
    else inRegexLang normHead normTail "AB\n".toList) = false from rfl] at hfalse
  exact absurd hfalse (by simp)

/-- **C5 (amended).** With all other fields valid, a rule is accepted if and
only if its name is in the language of the anchored pattern selected by
`is_impl_def` — or is such a word followed by exactly one trailing newline
(Python's `$` quirk); every other name, including single-character names,
wrong-case names, and names with any other trailing or embedded whitespace,
is rejected with a fatal error. -/
theorem name_acceptance_iff
    (name fn ch : String) (data : List (String × PyVal)) (flds : RuleFields)
    (hf : mkFields name data = .ok flds) :
    (mkNormativeRuleDef name fn ch data).isOk = true ↔
      ((if flds.impldef then inRegexLang implHead implTail name.toList
        else inRegexLang normHead normTail name.toList) = true ∨
       ∃ u, name.toList = u ++ ['\n'] ∧
         (if flds.impldef then inRegexLang implHead implTail u
          else inRegexLang normHead normTail u) = true) := by
  rw [@mk_isOk_eq name fn ch data flds hf]
  rcases hi : flds.impldef with _ | _ <;>
    simp only [matchesNamePattern, hi, Bool.false_eq_true, eq_self_iff_true,
      if_true, if_false] <;>
    exact reMatch_iff_lang _ _ name.toList

/-- Witness for the amended C5: `"MISA_MXL"` is accepted as an
implementation-defined rule name. -/
theorem name_acceptance_iff_witness :
    (mkNormativeRuleDef "MISA_MXL" "f.yaml" "ch"
      [("impl-def-behavior", PyVal.bool true)]).isOk = true :=
  (name_acceptance_iff "MISA_MXL" "f.yaml" "ch"
      [("impl-def-behavior", PyVal.bool true)] exampleImplFields (by rfl)).mpr
    (Or.inl (by rfl))


/-- **C9.** Rule construction also honours a singular `instance` field: the
constructed rule's instances sequence is the optional `instance` value (if
present) followed by the elements of the optional `instances` list, in that
order; and the instances-require-kind check applies to this combined
sequence, so a singular `instance` with no `kind` is already fatal. -/
theorem singular_instance_field_merge :
    (∀ (name fn ch : String) (data : List (String × PyVal))
       (o1 o2 o3 o4 o5 : Option String) (k : String) (b : Bool) (l : List PyVal),
      pyGetOpt data "summary" = o1.map PyVal.str →
      pyGetOpt data "note" = o2.map PyVal.str →
      pyGetOpt data "clarification-link" = o3.map PyVal.str →
      pyGetOpt data "clarification-text" = o4.map PyVal.str →
      pyGetOpt data "description" = o5.map PyVal.str →
      pyGetOpt data "kind" = some (PyVal.str k) → k ∈ KINDS →
      pyGet data "impl-def-behavior" = some (PyVal.bool b) →
      pyGetOpt data "impl-def-category" = Option.none →
      (pyGetOpt data "instances" = some (PyVal.list l) ∨
        (pyGetOpt data "instances" = Option.none ∧ l = [])) →
      pyGetOpt data "tag" = Option.none →
      pyGetOpt data "tags" = Option.none →
      mkFields name data = .ok
        { summary := o1, note := o2, clarification_link := o3,
          clarification_text := o4, description := o5, kind := some k,
          impldef := b, impldef_cat := Option.none,
          instances := (match pyGetOpt data "instance" with
            | some v => [v]
            | Option.none => []) ++ l,
          tag_refs := [] } ∧
      ∀ r, mkNormativeRuleDef name fn ch data = .ok r →
        r.instances = (match pyGetOpt data "instance" with
          | some v => [v]
          | Option.none => []) ++ l) ∧
    (∀ (name : String) (data : List (String × PyVal))
       (o1 o2 o3 o4 o5 : Option String) (b : Bool) (v : PyVal),
      pyGetOpt data "summary" = o1.map PyVal.str →
      pyGetOpt data "note" = o2.map PyVal.str →
      pyGetOpt data "clarification-link" = o3.map PyVal.str →
      pyGetOpt data "clarification-text" = o4.map PyVal.str →
      pyGetOpt data "description" = o5.map PyVal.str →
      pyGetOpt data "kind" = Option.none →
      pyGet data "impl-def-behavior" = some (PyVal.bool b) →
      pyGetOpt data "impl-def-category" = Option.none →
      pyGetOpt data "instance" = some v →
      pyGetOpt data "instances" = Option.none →
      mkFields name data = .error (.instancesWithoutKind name)) := by
  constructor
  · intro name fn ch data o1 o2 o3 o4 o5 k b l
    intro hsum hnote hclk hclt hdesc hkind hkmem hb hcat hinst htag htags
    have h1 : getStrField data "summary" "summary" name = .ok o1 := by
      cases o1 <;> simp [getStrField, hsum]
    have h2 : getStrField data "note" "note" name = .ok o2 := by
      cases o2 <;> simp [getStrField, hnote]
    have h3 : getStrField data "clarification-link" "clarification_link" name = .ok o3 := by
      cases o3 <;> simp [getStrField, hclk]
    have h4 : getStrField data "clarification-text" "clarification_text" name = .ok o4 := by
      cases o4 <;> simp [getStrField, hclt]
    have h5 : getStrField data "description" "description" name = .ok o5 := by
      cases o5 <;> simp [getStrField, hdesc]
    have hk : getStrField data "kind" "kind" name = .ok (some k) := by
      simp [getStrField, hkind]
    have hcat' : getStrField data "impl-def-category" "impldef_cat" name = .ok Option.none := by
      simp [getStrField, hcat]
    have hfields : mkFields name data = .ok
        { summary := o1, note := o2, clarification_link := o3,
          clarification_text := o4, description := o5, kind := some k,
          impldef := b, impldef_cat := Option.none,
          instances := (match pyGetOpt data "instance" with
            | some v => [v]
            | Option.none => []) ++ l,
          tag_refs := [] } := by
      rcases hinst with hinst | ⟨hinst, rfl⟩ <;>
        simp [mkFields, check_kind, pyIterate, h1, h2, h3, h4, h5, hk, hkmem,
          hb, hcat', hinst, htag, htags, List.mapM_nil, List.mapM.loop,
          exceptBind_ok, exceptBind_error, exceptPure]
    refine ⟨hfields, ?_⟩
    intro r hr
    unfold mkNormativeRuleDef at hr
    rw [hfields] at hr
    split at hr
    next e heq => exact absurd heq (by simp)
    next flds heq =>
      injection heq with heq
      subst heq
      split at hr
      · injection hr with hr
        subst hr
        rfl
      · exact absurd hr (by simp)
  · intro name data o1 o2 o3 o4 o5 b v
    intro hsum hnote hclk hclt hdesc hkind hb hcat hinst hinsts
    have h1 : getStrField data "summary" "summary" name = .ok o1 := by
      cases o1 <;> simp [getStrField, hsum]
    have h2 : getStrField data "note" "note" name = .ok o2 := by
      cases o2 <;> simp [getStrField, hnote]
    have h3 : getStrField data "clarification-link" "clarification_link" name = .ok o3 := by
      cases o3 <;> simp [getStrField, hclk]
    have h4 : getStrField data "clarification-text" "clarification_text" name = .ok o4 := by
      cases o4 <;> simp [getStrField, hclt]
    have h5 : getStrField data "description" "description" name = .ok o5 := by
      cases o5 <;> simp [getStrField, hdesc]
    have hk : getStrField data "kind" "kind" name = .ok Option.none := by
      simp [getStrField, hkind]
    have hcat' : getStrField data "impl-def-category" "impldef_cat" name = .ok Option.none := by
      simp [getStrField, hcat]
    simp [mkFields, h1, h2, h3, h4, h5, hk, hb, hcat', hinst, hinsts,
      exceptBind_ok, exceptBind_error, exceptPure]

/-- A concrete definition entry exercising both `instance` and `instances`. -/
def exampleInstanceData : List (String × PyVal) :=
  [("kind", PyVal.str "csr"), ("impl-def-behavior", PyVal.bool false),
   ("instance", PyVal.str "a"), ("instances", PyVal.list [PyVal.str "b"])]

/-- Witness for C9: the singular value precedes the list elements. -/
theorem singular_instance_field_merge_witness :
    mkFields "r-one" exampleInstanceData = .ok
      { summary := Option.none, note := Option.none,
        clarification_link := Option.none, clarification_text := Option.none,
        description := Option.none, kind := some "csr", impldef := false,
        impldef_cat := Option.none,
        instances := [PyVal.str "a", PyVal.str "b"], tag_refs := [] } :=
  singular_instance_field_merge.1 "r-one" "f.yaml" "ch" exampleInstanceData
    Option.none Option.none Option.none Option.none Option.none "csr" false
    [PyVal.str "b"] rfl rfl rfl rfl rfl rfl (by decide) rfl rfl (Or.inl rfl)
    rfl rfl |>.1


/-! ## The markup converter (`Adoc2HTML`)

Each `re.sub` call is modelled by `subScan`, a left-to-right scanner: at
every position a pattern-specific matcher sees the previous character of the
original string (`Option.none` at position 0 — this carries the `^` anchor
and lookbehind context) and the remaining input, and returns the replacement
text together with the number of characters the match consumes; scanning
resumes after the match, as `re.sub` does.  The fuel argument only bounds the
recursion; one unit is spent per position advanced, so `s.length` suffices
and the fuel-0 branch is unreachable from the wrappers below. -/

def backquoteChar : Char := Char.ofNat 96

/-- One `re.sub` pass (leftmost match, continue after each match). -/
def subScan (tryM : Option Char → List Char → Option (List Char × Nat)) :
    Nat → Option Char → List Char → List Char
  | 0, _, s => s
  | _ + 1, _, [] => []
  | fuel + 1, prev, c :: rest =>
    match tryM prev (c :: rest) with
    | Option.none => c :: subScan tryM fuel (some c) rest
    | some (rep, n) =>
      rep ++ subScan tryM fuel (((c :: rest).drop (n - 1)).head?) ((c :: rest).drop n)

/-- The lazy search for the closing double delimiter of the unconstrained
pattern `d{2}(.+?)d{2}`: the result is the number of further content
characters (each of which must not be a newline, since `.` does not match
`\n`) before the first position where two delimiter characters follow. -/
def uncClose (d : Char) : List Char → Option Nat
  | [] => Option.none
  | x :: v =>
    if x = d ∧ v.head? = some d then some 0
    else if x = '\n' then Option.none
    else (uncClose d v).map (· + 1)

/-- Matcher for `unconstrained_format_pattern`: double delimiter, lazy
non-empty content, double delimiter; content is reprocessed by `conv`
(the `convert_nested` recursion) before `tf` wraps it. -/
def uncTry (d : Char) (conv tf : List Char → List Char)
    (_prev : Option Char) (s : List Char) : Option (List Char × Nat) :=
  match s with
  | d1 :: d2 :: c0 :: rest =>
    if d1 = d ∧ d2 = d ∧ c0 ≠ '\n' then
      (uncClose d rest).map (fun k => (tf (conv (c0 :: rest.take k)), 2 + (1 + k) + 2))
    else Option.none
  | _ => Option.none

/-- The boundary lookahead `(?=[,;".?!\s]|$)` after a constrained span
(`$` adds nothing beyond the class, as `\n` is already whitespace). -/
def constrBoundary : List Char → Bool
  | [] => true
  | c :: _ => pyWS c || c = ',' || c = ';' || c = '"' || c = '.' || c = '?' || c = '!'

/-- The lazy search for the constrained closing delimiter: `prevC` is the
last content character consumed so far; `.*?` may not consume a newline;
closing requires the delimiter preceded by a non-whitespace character
(`(?<!\s)`) and followed by the boundary class. -/
def constrClose (d : Char) (prevC : Char) : List Char → Option Nat
  | [] => Option.none
  | x :: v =>
    if x = d ∧ pyWS prevC = false ∧ constrBoundary v then some 0
    else if x = '\n' then Option.none
    else (constrClose d x v).map (· + 1)

/-- The content-and-close part of the constrained pattern
`(\S(?:(?!\s).*?(?<!\s))?)d(?=...)`, starting right after the opening
delimiter: the first content character must be non-whitespace, and any
extension past it is gated by the `(?!\s)` lookahead on the second content
character.  Returns the content and the characters consumed including the
closing delimiter. -/
def constrBody (d : Char) : List Char → Option (List Char × Nat)
  | [] => Option.none
  | [_] => Option.none
  | c0 :: u0 :: urest =>
    if pyWS c0 then Option.none
    else if pyWS u0 then Option.none
    else (constrClose d c0 (u0 :: urest)).map
      (fun m => (c0 :: (u0 :: urest).take m, (1 + m) + 1))

/-- Matcher for `constrained_format_pattern`: the `(^|\s)` alternative is
tried in order — `^` holds exactly when the scanner is at position 0
(`prev = Option.none`); the `\s` alternative consumes the whitespace
character, which is re-emitted before the replacement (`match.group(1)`). -/
def constrTry (d : Char) (conv tf : List Char → List Char)
    (prev : Option Char) (s : List Char) : Option (List Char × Nat) :=
  let viaStart : Option (List Char × Nat) :=
    match prev, s with
    | Option.none, c :: t =>
      if c = d then (constrBody d t).map (fun p => (tf (conv p.1), 1 + p.2))
      else Option.none
    | _, _ => Option.none
  match viaStart with
  | some r => some r
  | Option.none =>
    match s with
    | w :: c :: t =>
      if pyWS w ∧ c = d then
        (constrBody d t).map (fun p => (w :: tf (conv p.1), 2 + p.2))
      else Option.none
    | _ => Option.none

/-- The lazy search for the closing delimiter of the continuous pattern
`d(\S+?)d`: content characters must be non-whitespace. -/
def contClose (d : Char) : List Char → Option Nat
  | [] => Option.none
  | x :: v =>
    if x = d then some 0
    else if pyWS x then Option.none
    else (contClose d v).map (· + 1)

/-- Matcher for `continuous_format_pattern` (superscript/subscript): single
delimiter, non-empty whitespace-free content, no recursion. -/
def contTry (d : Char) (tf : List Char → List Char)
    (_prev : Option Char) (s : List Char) : Option (List Char × Nat) :=
  match s with
  | d1 :: c0 :: rest =>
    if d1 = d ∧ pyWS c0 = false then
      (contClose d rest).map (fun k => (tf (c0 :: rest.take k), 2 + k + 1))
    else Option.none
  | _ => Option.none

/-- Matcher for `convert_underline`:
`\[\.underline\]#([^#]+)#` → `<span class="underline">\1</span>`. -/
def underlineTry (_prev : Option Char) (s : List Char) : Option (List Char × Nat) :=
  match stripLit "[.underline]#".toList s with
  | Option.none => Option.none
  | some t =>
    let body := t.takeWhile (fun c => c ≠ '#')
    if body.isEmpty then Option.none
    else
      match t.drop body.length with
      | '#' :: _ =>
        some ("<span class=\x22underline\x22>".toList ++ body ++ "</span>".toList,
          13 + body.length + 1)
      | _ => Option.none

/-- Matcher for the first `convert_extra_amp` pass: `&amp;(\w+);` → `&\1;`. -/
def extraAmpNameTry (_prev : Option Char) (s : List Char) : Option (List Char × Nat) :=
  match stripLit "&amp;".toList s with
  | Option.none => Option.none
  | some t =>
    let w := t.takeWhile pyWordChar
    if w.isEmpty then Option.none
    else
      match t.drop w.length with
      | ';' :: _ => some ('&' :: w ++ [';'], 5 + w.length + 1)
      | _ => Option.none

/-- Matcher for the second `convert_extra_amp` pass:
`&amp;#(\d+);` → `&#\1;`. -/
def extraAmpDecTry (_prev : Option Char) (s : List Char) : Option (List Char × Nat) :=
  match stripLit "&amp;#".toList s with
  | Option.none => Option.none
  | some t =>
    let w := t.takeWhile Char.isDigit
    if w.isEmpty then Option.none
    else
      match t.drop w.length with
      | ';' :: _ => some ('&' :: '#' :: w ++ [';'], 6 + w.length + 1)
      | _ => Option.none

/-- `[0-9a-fA-F]`. -/
def isHexDigit (c : Char) : Bool :=
  c.isDigit || ('a' ≤ c && c ≤ 'f') || ('A' ≤ c && c ≤ 'F')

/-- Matcher for the third `convert_extra_amp` pass:
`&amp;#x([0-9a-fA-F]+);` → `&#x\1;`. -/
def extraAmpHexTry (_prev : Option Char) (s : List Char) : Option (List Char × Nat) :=
  match stripLit "&amp;#x".toList s with
  | Option.none => Option.none
  | some t =>
    let w := t.takeWhile isHexDigit
    if w.isEmpty then Option.none
    else
      match t.drop w.length with
      | ';' :: _ => some ('&' :: '#' :: 'x' :: w ++ [';'], 7 + w.length + 1)
      | _ => Option.none

-- Global constants for the escaped angle brackets.
def LT_UNICODE_DECIMAL : Nat := 60

def GT_UNICODE_DECIMAL : Nat := 62

def LT_UNICODE_STR : String := "&#60;"

def GT_UNICODE_STR : String := "&#62;"

/-- The named-entity table of `convert_unicode_names`. -/
def entityTable : List (String × Nat) :=
  [("ge", 8805), ("le", 8804), ("ne", 8800), ("equiv", 8801),
   ("lt", LT_UNICODE_DECIMAL), ("gt", GT_UNICODE_DECIMAL), ("amp", 38),
   ("quot", 34), ("apos", 39), ("nbsp", 160), ("times", 215),
   ("divide", 247), ("plusmn", 177), ("deg", 176), ("micro", 181),
   ("para", 182), ("middot", 183), ("raquo", 187), ("laquo", 171),
   ("frac12", 189), ("frac14", 188), ("frac34", 190)]

/-- Matcher for `convert_unicode_names`: `&(\w+);` is rewritten to the
numeric entity when the name is known and left untouched otherwise. -/
def unicodeNameTry (_prev : Option Char) (s : List Char) : Option (List Char × Nat) :=
  match s with
  | '&' :: t =>
    let w := t.takeWhile pyWordChar
    if w.isEmpty then Option.none
    else
      match t.drop w.length with
      | ';' :: _ =>
        match (entityTable.find? (fun p => p.1 == String.mk w)).map Prod.snd with
        | some code =>
          some ('&' :: '#' :: (Nat.repr code).toList ++ [';'], 1 + w.length + 1)
        | Option.none => some ('&' :: w ++ [';'], 1 + w.length + 1)
      | _ => Option.none
  | _ => Option.none

namespace Adoc2HTML

/-- `Adoc2HTML.unconstrained_format_pattern` (`recursive=True` at every call
site, so `conv` is the nested-content converter). -/
def unconstrained_format_pattern (s : List Char) (d : Char)
    (conv tf : List Char → List Char) : List Char :=
  subScan (uncTry d conv tf) s.length Option.none s

/-- `Adoc2HTML.constrained_format_pattern`. -/
def constrained_format_pattern (s : List Char) (d : Char)
    (conv tf : List Char → List Char) : List Char :=
  subScan (constrTry d conv tf) s.length Option.none s

/-- `Adoc2HTML.continuous_format_pattern`. -/
def continuous_format_pattern (s : List Char) (d : Char)
    (tf : List Char → List Char) : List Char :=
  subScan (contTry d tf) s.length Option.none s

/-- `lambda c: f"<b>{c}</b>"`. -/
def bWrap (c : List Char) : List Char := "<b>".toList ++ c ++ "</b>".toList

/-- `lambda c: f"<i>{c}</i>"`. -/
def iWrap (c : List Char) : List Char := "<i>".toList ++ c ++ "</i>".toList

/-- `lambda c: f"<code>{c}</code>"`. -/
def codeWrap (c : List Char) : List Char := "<code>".toList ++ c ++ "</code>".toList

/-- `Adoc2HTML.convert_nested`: both span families over all three markers,
unconstrained first, each recursing into captured content.  The fuel only
bounds the nesting depth: each level is applied to a span content, which
holds at least two fewer delimiter characters than the text it came from, so
`length + 1` fuel (supplied by `convert_nested`) is never exhausted. -/
def convertNestedF : Nat → List Char → List Char
  | 0, s => s
  | fuel + 1, s =>
    let r := unconstrained_format_pattern s '*' (convertNestedF fuel) bWrap
    let r := unconstrained_format_pattern r '_' (convertNestedF fuel) iWrap
    let r := unconstrained_format_pattern r backquoteChar (convertNestedF fuel) codeWrap
    let r := constrained_format_pattern r '*' (convertNestedF fuel) bWrap
    let r := constrained_format_pattern r '_' (convertNestedF fuel) iWrap
    let r := constrained_format_pattern r backquoteChar (convertNestedF fuel) codeWrap
    r

/-- `Adoc2HTML.convert_nested`. -/
def convert_nested (s : List Char) : List Char := convertNestedF (s.length + 1) s

/-- `Adoc2HTML.convert_unconstrained`. -/
def convert_unconstrained (s : List Char) : List Char :=
  let r := unconstrained_format_pattern s '*' convert_nested bWrap
  let r := unconstrained_format_pattern r '_' convert_nested iWrap
  let r := unconstrained_format_pattern r backquoteChar convert_nested codeWrap
  r

/-- `Adoc2HTML.convert_constrained`. -/
def convert_constrained (s : List Char) : List Char :=
  let r := constrained_format_pattern s '*' convert_nested bWrap
  let r := constrained_format_pattern r '_' convert_nested iWrap
  let r := constrained_format_pattern r backquoteChar convert_nested codeWrap
  r

/-- `Adoc2HTML.convert_superscript`. -/
def convert_superscript (s : List Char) : List Char :=
  continuous_format_pattern s '^' (fun c => "<sup>".toList ++ c ++ "</sup>".toList)

/-- `Adoc2HTML.convert_subscript`. -/
def convert_subscript (s : List Char) : List Char :=
  continuous_format_pattern s '~' (fun c => "<sub>".toList ++ c ++ "</sub>".toList)

/-- `Adoc2HTML.convert_underline`. -/
def convert_underline (s : List Char) : List Char :=
  subScan underlineTry s.length Option.none s

/-- `Adoc2HTML.convert_extra_amp`: the three repair substitutions in source
order. -/
def convert_extra_amp (s : List Char) : List Char :=
  let r := subScan extraAmpNameTry s.length Option.none s
  let r := subScan extraAmpDecTry r.length Option.none r
  let r := subScan extraAmpHexTry r.length Option.none r
  r

/-- `Adoc2HTML.convert_unicode_names`. -/
def convert_unicode_names (s : List Char) : List Char :=
  subScan unicodeNameTry s.length Option.none s

/-- `Adoc2HTML.convert`: the fixed pipeline of all format conversions. -/
def convert (text : String) : String :=
  let r := convert_unconstrained text.toList
  let r := convert_constrained r
  let r := convert_superscript r
  let r := convert_subscript r
  let r := convert_underline r
  let r := convert_extra_amp r
  let r := convert_unicode_names r
  String.mk r

end Adoc2HTML


/-! ### Lemmas about the constrained-span pass (claim C2) -/

/-- Characters outside all three span-delimiter classes. -/
def fmtFree (c : Char) : Bool := c != '*' && c != '_' && c != backquoteChar

/-- The opening context the constrained pattern accepts: start of text or a
whitespace character immediately before the opening delimiter. -/
def spanOpenOk (pre : List Char) : Bool :=
  match pre.getLast? with
  | Option.none => true
  | some w => pyWS w

/-- The content/boundary conditions under which the single-delimiter span
over `content`, followed by `post`, matches: non-whitespace first content
character, the `(?!\s)` gate on the second content character, no newline
later in the content (`.` does not match `\n`), a non-whitespace last
content character, and the boundary class (or end of text) after the
closing delimiter. -/
def spanBodyOk (content post : List Char) : Bool :=
  match content with
  | [] => false
  | c0 :: ctail =>
    !pyWS c0 &&
    (match ctail with
     | [] => true
     | c1 :: _ => !pyWS c1) &&
    ctail.all (fun c => c != '\n') &&
    !pyWS (ctail.getLastD c0) &&
    constrBoundary post

/-- A scan over text in which the matcher never fires is the identity. -/
theorem subScan_of_none (tryM : Option Char → List Char → Option (List Char × Nat)) :
    ∀ (fuel : Nat) (prev : Option Char) (s : List Char),
    (∀ prev' t, t <:+ s → tryM prev' t = Option.none) →
    subScan tryM fuel prev s = s := by
  intro fuel
  induction fuel with
  | zero => intro prev s _; rfl
  | succ f ih =>
    intro prev s h
    cases s with
    | nil => rfl
    | cons c rest =>
      rw [subScan, h prev (c :: rest) (List.suffix_refl _)]
      rw [ih (some c) rest (fun prev' t ht =>
        h prev' t (ht.trans (List.suffix_cons c rest)))]

/-- Without the delimiter anywhere in the text, the constrained matcher
never fires. -/
theorem constrTry_none (d : Char) (conv tf : List Char → List Char)
    (prev : Option Char) (t : List Char) (h : ∀ c ∈ t, c ≠ d) :
    constrTry d conv tf prev t = Option.none := by
  unfold constrTry
  cases t with
  | nil => cases prev <;> rfl
  | cons c t' =>
    have hc : c ≠ d := h c (by simp)
    cases prev with
    | some p =>
      cases t' with
      | nil => rfl
      | cons c2 t2 =>
        have hc2 : c2 ≠ d := h c2 (by simp)
        simp [hc2]
    | none =>
      simp only [hc, if_false]
      cases t' with
      | nil => rfl
      | cons c2 t2 =>
        have hc2 : c2 ≠ d := h c2 (by simp)
        simp [hc2]

/-- Without the delimiter anywhere in the text, the unconstrained matcher
never fires. -/
theorem uncTry_none (d : Char) (conv tf : List Char → List Char)
    (prev : Option Char) (t : List Char) (h : ∀ c ∈ t, c ≠ d) :
    uncTry d conv tf prev t = Option.none := by
  unfold uncTry
  match t with
  | [] => rfl
  | [c] => rfl
  | [c, c2] => rfl
  | c :: c2 :: c3 :: t3 =>
    have hc : c ≠ d := h c (by simp)
    simp [hc]

/-- Without the closing delimiter in the remaining text, the constrained
close search fails. -/
theorem constrClose_none (d : Char) (p : Char) (v : List Char)
    (h : ∀ c ∈ v, c ≠ d) : constrClose d p v = Option.none := by
  induction v generalizing p with
  | nil => rfl
  | cons x v' ih =>
    have hx : x ≠ d := h x (by simp)
    rw [constrClose]
    simp only [hx, false_and, if_false]
    split
    · rfl
    · rw [ih x (fun c hc => h c (by simp [hc]))]
      rfl

/-- Without the closing delimiter in the remaining text, the constrained
body match fails. -/
theorem constrBody_none (d : Char) (t : List Char) (h : ∀ c ∈ t, c ≠ d) :
    constrBody d t = Option.none := by
  match t with
  | [] => rfl
  | [c0] => rfl
  | c0 :: u0 :: u' =>
    rw [constrBody]
    split
    · rfl
    · split
      · rfl
      · rw [constrClose_none d c0 (u0 :: u')
          (fun c hc => h c (List.mem_cons_of_mem _ hc))]
        rfl

/-- The constrained close search across the span content: it closes exactly
at the single delimiter, provided no newline was consumed, the character
before the delimiter is non-whitespace, and the boundary class follows. -/
theorem constrClose_through (d : Char) (hdws : pyWS d = false)
    (c0 : Char) (ctail post : List Char)
    (hct : ∀ c ∈ ctail, c ≠ d) (hpost : ∀ c ∈ post, c ≠ d) :
    constrClose d c0 (ctail ++ d :: post) =
      (if (ctail.all (fun c => c != '\n') && !pyWS (ctail.getLastD c0) &&
           constrBoundary post) = true
       then some ctail.length else Option.none) := by
  induction ctail generalizing c0 with
  | nil =>
    simp only [List.nil_append, List.all_nil, List.getLastD, Bool.true_and]
    rw [constrClose]
    have hdn : d ≠ '\n' := by
      intro hd; rw [hd] at hdws; exact absurd hdws (by decide)
    by_cases hb : (!pyWS c0 && constrBoundary post) = true
    · simp only [Bool.and_eq_true, Bool.not_eq_true'] at hb
      simp [hb.1, hb.2]
    · simp only [Bool.and_eq_true, not_and, Bool.not_eq_true'] at hb
      have hfst : ¬(d = d ∧ pyWS c0 = false ∧ constrBoundary post = true) := by
        rintro ⟨_, h1, h2⟩
        exact hb h1 h2
      have hrhs : ¬((!pyWS c0 && constrBoundary post) = true) := by
        simp only [Bool.and_eq_true, Bool.not_eq_true']
        rintro ⟨h1, h2⟩
        exact hb h1 h2
      rw [if_neg hfst, if_neg hdn, constrClose_none d d post hpost, if_neg hrhs]
      rfl
  | cons c1 crest ih =>
    have hc1 : c1 ≠ d := hct c1 (by simp)
    rw [List.cons_append, constrClose]
    simp only [hc1, false_and, if_false]
    by_cases hn : c1 = '\n'
    · simp [hn]
    · rw [if_neg hn, ih c1 (fun c hc => hct c (by simp [hc]))]
      simp only [List.all_cons, List.getLastD_cons]
      have : (c1 != '\n') = true := by simpa using hn
      rw [this, Bool.true_and]
      split <;> simp

/-- The constrained body match at the span: it succeeds exactly under
`spanBodyOk` and captures the whole content. -/
theorem constrBody_at_span (d : Char) (hdws : pyWS d = false)
    (content post : List Char)
    (hcon : ∀ c ∈ content, c ≠ d) (hpost : ∀ c ∈ post, c ≠ d) :
    constrBody d (content ++ d :: post) =
      (if spanBodyOk content post = true
       then some (content, content.length + 1) else Option.none) := by
  cases content with
  | nil =>
    simp only [spanBodyOk, List.nil_append, Bool.false_eq_true, if_false]
    cases post with
    | nil => rfl
    | cons p0 ps =>
      rw [constrBody, if_neg (by simp [hdws])]
      split
      · rfl
      · rw [constrClose_none d d (p0 :: ps) hpost]
        rfl
  | cons c0 ctail =>
    by_cases hws : pyWS c0 = true
    · have hrhs : spanBodyOk (c0 :: ctail) post = false := by
        simp [spanBodyOk, hws]
      rw [hrhs]
      cases ctail with
      | nil =>
        rw [List.cons_append, List.nil_append, constrBody, if_pos hws]
        simp
      | cons c1 crest =>
        rw [List.cons_append, List.cons_append, constrBody, if_pos hws]
        simp
    · rw [Bool.not_eq_true] at hws
      cases ctail with
      | nil =>
        have hthru := constrClose_through d hdws c0 [] post (by simp) hpost
        rw [List.nil_append] at hthru
        rw [List.cons_append, List.nil_append, constrBody,
          if_neg (by simp [hws]), if_neg (by simp [hdws]), hthru]
        simp only [List.all_nil, List.getLastD, Bool.true_and, spanBodyOk, hws,
          Bool.not_false]
        split
        · simp
        · rfl
      | cons c1 crest =>
        have hc1 : c1 ≠ d := hcon c1 (by simp)
        by_cases hws1 : pyWS c1 = true
        · have hrhs : spanBodyOk (c0 :: c1 :: crest) post = false := by
            simp [spanBodyOk, hws1]
          rw [hrhs]
          rw [List.cons_append, List.cons_append, constrBody,
            if_neg (by simp [hws]), if_pos hws1]
          simp
        · rw [Bool.not_eq_true] at hws1
          rw [List.cons_append, List.cons_append, constrBody,
            if_neg (by simp [hws]), if_neg (by simp [hws1])]
          rw [show c1 :: (crest ++ d :: post) = (c1 :: crest) ++ d :: post from rfl,
            constrClose_through d hdws c0 (c1 :: crest) post
              (fun c hc => hcon c (List.mem_cons_of_mem _ hc)) hpost]
          simp only [spanBodyOk, hws, hws1, List.getLastD_cons, Bool.not_false,
            Bool.true_and]
          by_cases hcnd : ((c1 :: crest).all (fun c => c != '\n') &&
              !pyWS (crest.getLastD c1) && constrBoundary post) = true
          · rw [if_pos hcnd, if_pos (by simp only [Bool.and_eq_true] at hcnd ⊢; tauto)]
            simp only [Option.map, Option.some.injEq, Prod.mk.injEq]
            rw [List.take_left]
            refine ⟨rfl, ?_⟩
            simp only [List.length_cons]
            omega
          · rw [if_neg hcnd, if_neg (by simp only [Bool.and_eq_true] at hcnd ⊢; tauto)]
            rfl

-- BLOCKMARK
theorem constrTry_at_bare_delim (d : Char) (hdws : pyWS d = false)
    (conv tf : List Char → List Char) (prev : Option Char) (post : List Char)
    (hpost : ∀ c ∈ post, c ≠ d) :
    constrTry d conv tf prev (d :: post) = Option.none := by
  have hbody : constrBody d post = Option.none := constrBody_none d post hpost
  unfold constrTry
  cases prev with
  | none =>
    cases post with
    | nil => simp [show constrBody d [] = Option.none from rfl]
    | cons p0 ps => simp [hbody, hdws]
  | some p =>
    cases post with
    | nil => rfl
    | cons p0 ps => simp [hdws]

/-- In the middle of delimiter-free text followed by a bare delimiter whose
span cannot close, the constrained matcher does not fire. -/
theorem constrTry_mid (d : Char) (hdws : pyWS d = false)
    (conv tf : List Char → List Char) (prev : Option Char) (m0 : Char)
    (hm0 : m0 ≠ d) (mrest post : List Char)
    (hmrest : ∀ c ∈ mrest, c ≠ d) (hpost : ∀ c ∈ post, c ≠ d) :
    constrTry d conv tf prev (m0 :: (mrest ++ d :: post)) = Option.none := by
  have hbody : constrBody d post = Option.none := constrBody_none d post hpost
  unfold constrTry
  cases mrest with
  | nil =>
    cases prev <;> simp [hm0, hbody]
  | cons q qs =>
    have hq : q ≠ d := hmrest q (by simp)
    cases prev <;> simp [hm0, hq]

/-- Scanning delimiter-free text around a single unmatched delimiter leaves
it untouched. -/
theorem scanInner (d : Char) (hdws : pyWS d = false)
    (conv tf : List Char → List Char) :
    ∀ (fuel : Nat) (prev : Option Char) (mid post : List Char),
    (∀ c ∈ mid, c ≠ d) → (∀ c ∈ post, c ≠ d) →
    subScan (constrTry d conv tf) fuel prev (mid ++ d :: post) = mid ++ d :: post := by
  intro fuel
  induction fuel with
  | zero => intros; rfl
  | succ f ih =>
    intro prev mid post hmid hpost
    cases mid with
    | nil =>
      rw [List.nil_append]
      simp only [subScan,
        constrTry_at_bare_delim d hdws conv tf prev post hpost]
      rw [subScan_of_none _ f (some d) post (fun prev' t ht =>
        constrTry_none d conv tf prev' t (fun c hc => hpost c (ht.subset hc)))]
    | cons m0 mrest =>
      rw [List.cons_append]
      simp only [subScan,
        constrTry_mid d hdws conv tf prev m0 (hmid m0 (by simp)) mrest post
          (fun c hc => hmid c (List.mem_cons_of_mem _ hc)) hpost]
      rw [ih (some m0) mrest post
        (fun c hc => hmid c (List.mem_cons_of_mem _ hc)) hpost]

/-- At an opening delimiter whose body cannot match, the constrained
matcher does not fire. -/
theorem constrTry_open_noBody (d : Char) (hdws : pyWS d = false)
    (conv tf : List Char → List Char) (prev : Option Char)
    (content post : List Char) (hcon : ∀ c ∈ content, c ≠ d)
    (hblock : prev = Option.none →
      constrBody d (content ++ d :: post) = Option.none) :
    constrTry d conv tf prev (d :: (content ++ d :: post)) = Option.none := by
  rcases hcp : content ++ d :: post with _ | ⟨x, xs⟩
  · exact absurd hcp (by simp)
  · have hx : x ≠ d ∨ pyWS d = false := Or.inr hdws
    unfold constrTry
    cases prev with
    | none =>
      have hb := hblock rfl
      rw [hcp] at hb
      simp [hcp, hb, hdws]
    | some p =>
      simp [hcp, hdws]

/-- Scanning from an opening delimiter whose body cannot match (or whose
`^` anchor is unavailable) leaves the whole span untouched. -/
theorem scanFromOpen (d : Char) (hdws : pyWS d = false)
    (conv tf : List Char → List Char) :
    ∀ (fuel : Nat) (prev : Option Char) (content post : List Char),
    (∀ c ∈ content, c ≠ d) → (∀ c ∈ post, c ≠ d) →
    (prev = Option.none → constrBody d (content ++ d :: post) = Option.none) →
    subScan (constrTry d conv tf) fuel prev (d :: (content ++ d :: post)) =
      d :: (content ++ d :: post) := by
  intro fuel prev content post hcon hpost hblock
  cases fuel with
  | zero => rfl
  | succ f =>
    simp only [subScan,
      constrTry_open_noBody d hdws conv tf prev content post hcon hblock]
    rw [scanInner d hdws conv tf f (some d) content post hcon hpost]

/-- The three-pass constrained scan on a single candidate span
`pre d content d post` with delimiter-free `pre`, `content`, `post`:
the span converts exactly when the opening context and the body/boundary
conditions hold, and is otherwise left untouched. -/
theorem scanSpan (d : Char) (hdws : pyWS d = false)
    (conv tf : List Char → List Char) :
    ∀ (pre : List Char) (fuel : Nat) (prev : Option Char) (content post : List Char),
    (∀ c ∈ pre, c ≠ d) → (∀ c ∈ content, c ≠ d) → (∀ c ∈ post, c ≠ d) →
    (pre = [] → prev = Option.none) →
    pre.length < fuel →
    subScan (constrTry d conv tf) fuel prev (pre ++ d :: content ++ d :: post) =
      (if (spanOpenOk pre && spanBodyOk content post) = true
       then pre ++ tf (conv content) ++ post
       else pre ++ d :: content ++ d :: post) := by
  intro pre
  induction pre with
  | nil =>
    intro fuel prev content post hpre hcon hpost hpp hlen
    rw [hpp rfl, List.nil_append]
    have hdrop : (content ++ d :: post).drop (content.length + 1) = post := by
      rw [show content ++ d :: post = (content ++ [d]) ++ post by simp,
        show content.length + 1 = (content ++ [d]).length by simp]
      exact List.drop_left _ _
    have hbody := constrBody_at_span d hdws content post hcon hpost
    by_cases hok : spanBodyOk content post = true
    · rw [if_pos hok] at hbody
      cases fuel with
      | zero => simp at hlen
      | succ f =>
        have htry : constrTry d conv tf Option.none (d :: (content ++ d :: post)) =
            some (tf (conv content), 1 + (content.length + 1)) := by
          unfold constrTry
          simp [hbody, Option.map]
        have h1 : (d :: (content ++ d :: post)).drop (1 + (content.length + 1)) = post := by
          rw [show 1 + (content.length + 1) = (content.length + 1) + 1 from by omega,
            List.drop_succ_cons]
          exact hdrop
        rw [show (d :: content ++ d :: post : List Char)
          = d :: (content ++ d :: post) from rfl]
        simp only [subScan, htry]
        rw [h1]
        rw [subScan_of_none _ f _ post (fun pr t ht =>
          constrTry_none d conv tf pr t (fun c hc => hpost c (ht.subset hc)))]
        simp [spanOpenOk, hok]
    · rw [if_neg hok] at hbody
      rw [show (spanOpenOk [] && spanBodyOk content post) = false from by
        simp [spanOpenOk, hok], if_neg (by simp)]
      exact scanFromOpen d hdws conv tf fuel Option.none content post hcon hpost
        (fun _ => hbody)
  | cons p0 prest ih =>
    intro fuel prev content post hpre hcon hpost _ hlen
    have hp0 : p0 ≠ d := hpre p0 (by simp)
    have hprest : ∀ c ∈ prest, c ≠ d :=
      fun c hc => hpre c (List.mem_cons_of_mem _ hc)
    cases fuel with
    | zero => simp at hlen
    | succ f =>
      simp only [List.cons_append]
      have hbody := constrBody_at_span d hdws content post hcon hpost
      cases prest with
      | nil =>
        simp only [List.nil_append]
        rw [show (p0 :: (d :: content ++ d :: post) : List Char)
          = p0 :: d :: (content ++ d :: post) from rfl]
        have hdrop : (content ++ d :: post).drop (content.length + 1) = post := by
          rw [show content ++ d :: post = (content ++ [d]) ++ post by simp,
            show content.length + 1 = (content ++ [d]).length by simp]
          exact List.drop_left _ _
        by_cases hmatch : (pyWS p0 && spanBodyOk content post) = true
        · rw [Bool.and_eq_true] at hmatch
          rw [if_pos hmatch.2] at hbody
          have htry : constrTry d conv tf prev
              (p0 :: d :: (content ++ d :: post)) =
              some (p0 :: tf (conv content), 2 + (content.length + 1)) := by
            unfold constrTry
            cases prev with
            | none => simp [hp0, hmatch.1, hbody, Option.map]
            | some p => simp [hp0, hmatch.1, hbody, Option.map]
          have h1 : (p0 :: d :: (content ++ d :: post)).drop (2 + (content.length + 1))
              = post := by
            rw [show 2 + (content.length + 1) = ((content.length + 1) + 1) + 1 from by omega,
              List.drop_succ_cons, List.drop_succ_cons]
            exact hdrop
          simp only [subScan, htry]
          rw [h1]
          rw [subScan_of_none _ f _ post (fun pr t ht =>
            constrTry_none d conv tf pr t (fun c hc => hpost c (ht.subset hc)))]
          rw [show (spanOpenOk [p0] && spanBodyOk content post) = true from by
            simp [spanOpenOk, hmatch.1, hmatch.2], if_pos rfl]
          simp
        · have hnm := hmatch
          rw [Bool.and_eq_true, not_and_or] at hnm
          have htry : constrTry d conv tf prev
              (p0 :: d :: (content ++ d :: post)) = Option.none := by
            unfold constrTry
            rcases hnm with hws | hok
            · rw [Bool.not_eq_true] at hws
              cases prev with
              | none => simp [hp0, hws]
              | some p => simp [hws]
            · rw [Bool.not_eq_true] at hok
              rw [if_neg (by simp [hok])] at hbody
              cases prev with
              | none => simp [hp0, hbody]
              | some p => simp [hbody]
          simp only [subScan, htry]
          have hrest := scanFromOpen d hdws conv tf f (some p0) content post hcon hpost
            (by intro h; exact absurd h (by simp))
          rw [hrest]
          rw [show (spanOpenOk [p0] && spanBodyOk content post) = false from by
            rcases hnm with h | h <;> rw [Bool.not_eq_true] at h <;>
              simp [spanOpenOk, h], if_neg (by simp)]
      | cons q qs =>
        simp only [List.cons_append]
        have hq : q ≠ d := hprest q (by simp)
        have htry : constrTry d conv tf prev
            (p0 :: q :: (qs ++ d :: content ++ d :: post)) = Option.none := by
          unfold constrTry
          cases prev with
          | none => simp [hp0, hq]
          | some p => simp [hq]
        simp only [subScan, htry]
        have hrec := ih f (some p0) content post hprest hcon hpost
          (by intro h; exact absurd h (by simp))
          (by simp only [List.length_cons] at hlen ⊢; omega)
        simp only [List.cons_append] at hrec
        rw [hrec]
        rw [show spanOpenOk (p0 :: q :: qs) = spanOpenOk (q :: qs) from by
          simp [spanOpenOk, List.getLast?_cons_cons]]
        split
        · simp
        · simp

/-- `fmtFree` characters are none of the three span delimiters. -/
theorem fmtFree_spec (c : Char) (h : fmtFree c = true) :
    c ≠ '*' ∧ c ≠ '_' ∧ c ≠ backquoteChar := by
  simp only [fmtFree, Bool.and_eq_true, bne_iff_ne] at h
  exact ⟨h.1.1, h.1.2, h.2⟩

/-- A pass of the unconstrained pattern over text without its delimiter is
the identity. -/
theorem unc_pass_id (s : List Char) (d : Char) (conv tf : List Char → List Char)
    (h : ∀ c ∈ s, c ≠ d) :
    Adoc2HTML.unconstrained_format_pattern s d conv tf = s :=
  subScan_of_none _ s.length Option.none s (fun pr t ht =>
    uncTry_none d conv tf pr t (fun c hc => h c (ht.subset hc)))

/-- A pass of the constrained pattern over text without its delimiter is
the identity. -/
theorem constr_pass_id (s : List Char) (d : Char) (conv tf : List Char → List Char)
    (h : ∀ c ∈ s, c ≠ d) :
    Adoc2HTML.constrained_format_pattern s d conv tf = s :=
  subScan_of_none _ s.length Option.none s (fun pr t ht =>
    constrTry_none d conv tf pr t (fun c hc => h c (ht.subset hc)))

/-- `convert_nested` on delimiter-free text is the identity. -/
theorem convertNestedF_plain (fuel : Nat) (s : List Char)
    (h : ∀ c ∈ s, fmtFree c = true) : Adoc2HTML.convertNestedF fuel s = s := by
  have hs : ∀ c ∈ s, c ≠ '*' := fun c hc => (fmtFree_spec c (h c hc)).1
  have hu : ∀ c ∈ s, c ≠ '_' := fun c hc => (fmtFree_spec c (h c hc)).2.1
  have hb : ∀ c ∈ s, c ≠ backquoteChar := fun c hc => (fmtFree_spec c (h c hc)).2.2
  cases fuel with
  | zero => rfl
  | succ f =>
    simp only [Adoc2HTML.convertNestedF]
    rw [unc_pass_id s '*' _ _ hs, unc_pass_id s '_' _ _ hu,
      unc_pass_id s _ _ _ hb, constr_pass_id s '*' _ _ hs,
      constr_pass_id s '_' _ _ hu, constr_pass_id s _ _ _ hb]

/-- `convert_nested` on delimiter-free text is the identity. -/
theorem convert_nested_plain (s : List Char)
    (h : ∀ c ∈ s, fmtFree c = true) : Adoc2HTML.convert_nested s = s :=
  convertNestedF_plain _ s h

/-- One constrained pass applied to a single candidate span. -/
theorem constrained_pass_at_span (d : Char) (hdws : pyWS d = false)
    (conv tf : List Char → List Char) (pre content post : List Char)
    (hpre : ∀ c ∈ pre, c ≠ d) (hcon : ∀ c ∈ content, c ≠ d)
    (hpost : ∀ c ∈ post, c ≠ d) :
    Adoc2HTML.constrained_format_pattern (pre ++ d :: content ++ d :: post) d conv tf =
      (if (spanOpenOk pre && spanBodyOk content post) = true
       then pre ++ tf (conv content) ++ post
       else pre ++ d :: content ++ d :: post) :=
  scanSpan d hdws conv tf pre _ Option.none content post hpre hcon hpost
    (fun _ => rfl)
    (by simp only [List.length_append, List.length_cons]; omega)

/-- Characters of a candidate span whose delimiter differs from `e` are
all different from `e`. -/
theorem mem_span_ne (d e : Char) (hde : d ≠ e)
    (hfe : ∀ c, fmtFree c = true → c ≠ e)
    (pre content post : List Char)
    (hpre : ∀ c ∈ pre, fmtFree c = true) (hcon : ∀ c ∈ content, fmtFree c = true)
    (hpost : ∀ c ∈ post, fmtFree c = true) :
    ∀ c ∈ pre ++ d :: content ++ d :: post, c ≠ e := by
  intro c hc
  rcases List.mem_append.1 hc with h | h
  · rcases List.mem_append.1 h with h | h
    · exact hfe c (hpre c h)
    · rcases List.mem_cons.1 h with rfl | h
      · exact hde
      · exact hfe c (hcon c h)
  · rcases List.mem_cons.1 h with rfl | h
    · exact hde
    · exact hfe c (hpost c h)

/-- Characters of a converted span built from a delimiter-free wrapper and
delimiter-free content are all different from `e`. -/
theorem mem_wrapped_ne (e : Char) (hfe : ∀ c, fmtFree c = true → c ≠ e)
    (op cl : List Char) (hop : ∀ c ∈ op, fmtFree c = true)
    (hcl : ∀ c ∈ cl, fmtFree c = true)
    (pre content post : List Char)
    (hpre : ∀ c ∈ pre, fmtFree c = true) (hcon : ∀ c ∈ content, fmtFree c = true)
    (hpost : ∀ c ∈ post, fmtFree c = true) :
    ∀ c ∈ pre ++ (op ++ content ++ cl) ++ post, c ≠ e := by
  intro c hc
  rcases List.mem_append.1 hc with h | h
  · rcases List.mem_append.1 h with h | h
    · exact hfe c (hpre c h)
    · rcases List.mem_append.1 h with h | h
      · rcases List.mem_append.1 h with h | h
        · exact hfe c (hop c h)
        · exact hfe c (hcon c h)
      · exact hfe c (hcl c h)
  · exact hfe c (hpost c h)

/-- The full constrained conversion on a single `*`-span over otherwise
delimiter-free text. -/
theorem convert_constrained_star_span (pre content post : List Char)
    (hpre : ∀ c ∈ pre, fmtFree c = true) (hcon : ∀ c ∈ content, fmtFree c = true)
    (hpost : ∀ c ∈ post, fmtFree c = true) :
    Adoc2HTML.convert_constrained (pre ++ '*' :: content ++ '*' :: post) =
      (if (spanOpenOk pre && spanBodyOk content post) = true
       then pre ++ Adoc2HTML.bWrap content ++ post
       else pre ++ '*' :: content ++ '*' :: post) := by
  have hne_u : ∀ c, fmtFree c = true → c ≠ '_' := fun c h => (fmtFree_spec c h).2.1
  have hne_b : ∀ c, fmtFree c = true → c ≠ backquoteChar :=
    fun c h => (fmtFree_spec c h).2.2
  have hpre1 : ∀ c ∈ pre, c ≠ '*' := fun c hc => (fmtFree_spec c (hpre c hc)).1
  have hcon1 : ∀ c ∈ content, c ≠ '*' := fun c hc => (fmtFree_spec c (hcon c hc)).1
  have hpost1 : ∀ c ∈ post, c ≠ '*' := fun c hc => (fmtFree_spec c (hpost c hc)).1
  simp only [Adoc2HTML.convert_constrained]
  rw [constrained_pass_at_span '*' (by decide) _ _ pre content post hpre1 hcon1 hpost1]
  rw [convert_nested_plain content hcon]
  by_cases hC : (spanOpenOk pre && spanBodyOk content post) = true
  · rw [if_pos hC]
    have hA_u : ∀ c ∈ pre ++ Adoc2HTML.bWrap content ++ post, c ≠ '_' :=
      mem_wrapped_ne '_' hne_u "<b>".toList "</b>".toList (by decide) (by decide)
        pre content post hpre hcon hpost
    have hA_b : ∀ c ∈ pre ++ Adoc2HTML.bWrap content ++ post, c ≠ backquoteChar :=
      mem_wrapped_ne backquoteChar hne_b "<b>".toList "</b>".toList (by decide)
        (by decide) pre content post hpre hcon hpost
    rw [constr_pass_id _ '_' _ _ hA_u, constr_pass_id _ backquoteChar _ _ hA_b]
  · rw [if_neg hC]
    rw [constr_pass_id _ '_' _ _
      (mem_span_ne '*' '_' (by decide) hne_u pre content post hpre hcon hpost)]
    rw [constr_pass_id _ backquoteChar _ _
      (mem_span_ne '*' backquoteChar (by decide) hne_b pre content post hpre hcon hpost)]

/-- The full constrained conversion on a single `_`-span over otherwise
delimiter-free text. -/
theorem convert_constrained_underscore_span (pre content post : List Char)
    (hpre : ∀ c ∈ pre, fmtFree c = true) (hcon : ∀ c ∈ content, fmtFree c = true)
    (hpost : ∀ c ∈ post, fmtFree c = true) :
    Adoc2HTML.convert_constrained (pre ++ '_' :: content ++ '_' :: post) =
      (if (spanOpenOk pre && spanBodyOk content post) = true
       then pre ++ Adoc2HTML.iWrap content ++ post
       else pre ++ '_' :: content ++ '_' :: post) := by
  have hne_s : ∀ c, fmtFree c = true → c ≠ '*' := fun c h => (fmtFree_spec c h).1
  have hne_b : ∀ c, fmtFree c = true → c ≠ backquoteChar :=
    fun c h => (fmtFree_spec c h).2.2
  have hpre1 : ∀ c ∈ pre, c ≠ '_' := fun c hc => (fmtFree_spec c (hpre c hc)).2.1
  have hcon1 : ∀ c ∈ content, c ≠ '_' := fun c hc => (fmtFree_spec c (hcon c hc)).2.1
  have hpost1 : ∀ c ∈ post, c ≠ '_' := fun c hc => (fmtFree_spec c (hpost c hc)).2.1
  simp only [Adoc2HTML.convert_constrained]
  rw [constr_pass_id _ '*' _ _
    (mem_span_ne '_' '*' (by decide) hne_s pre content post hpre hcon hpost)]
  rw [constrained_pass_at_span '_' (by decide) _ _ pre content post hpre1 hcon1 hpost1]
  rw [convert_nested_plain content hcon]
  by_cases hC : (spanOpenOk pre && spanBodyOk content post) = true
  · rw [if_pos hC]
    have hA_b : ∀ c ∈ pre ++ Adoc2HTML.iWrap content ++ post, c ≠ backquoteChar :=
      mem_wrapped_ne backquoteChar hne_b "<i>".toList "</i>".toList (by decide)
        (by decide) pre content post hpre hcon hpost
    rw [constr_pass_id _ backquoteChar _ _ hA_b]
  · rw [if_neg hC]
    rw [constr_pass_id _ backquoteChar _ _
      (mem_span_ne '_' backquoteChar (by decide) hne_b pre content post hpre hcon hpost)]

/-- The full constrained conversion on a single backquote span over
otherwise delimiter-free text. -/
theorem convert_constrained_code_span (pre content post : List Char)
    (hpre : ∀ c ∈ pre, fmtFree c = true) (hcon : ∀ c ∈ content, fmtFree c = true)
    (hpost : ∀ c ∈ post, fmtFree c = true) :
    Adoc2HTML.convert_constrained (pre ++ backquoteChar :: content ++ backquoteChar :: post) =
      (if (spanOpenOk pre && spanBodyOk content post) = true
       then pre ++ Adoc2HTML.codeWrap content ++ post
       else pre ++ backquoteChar :: content ++ backquoteChar :: post) := by
  have hne_s : ∀ c, fmtFree c = true → c ≠ '*' := fun c h => (fmtFree_spec c h).1
  have hne_u : ∀ c, fmtFree c = true → c ≠ '_' := fun c h => (fmtFree_spec c h).2.1
  have hpre1 : ∀ c ∈ pre, c ≠ backquoteChar :=
    fun c hc => (fmtFree_spec c (hpre c hc)).2.2
  have hcon1 : ∀ c ∈ content, c ≠ backquoteChar :=
    fun c hc => (fmtFree_spec c (hcon c hc)).2.2
  have hpost1 : ∀ c ∈ post, c ≠ backquoteChar :=
    fun c hc => (fmtFree_spec c (hpost c hc)).2.2
  simp only [Adoc2HTML.convert_constrained]
  rw [constr_pass_id _ '*' _ _
    (mem_span_ne backquoteChar '*' (by decide) hne_s pre content post hpre hcon hpost)]
  rw [constr_pass_id _ '_' _ _
    (mem_span_ne backquoteChar '_' (by decide) hne_u pre content post hpre hcon hpost)]
  rw [constrained_pass_at_span backquoteChar (by decide) _ _ pre content post
    hpre1 hcon1 hpost1]
  rw [convert_nested_plain content hcon]

/-- Spec-side opening condition for a constrained span, modelled from the
specification words: the opening delimiter is preceded by start-of-text or
whitespace. -/
def specConstrainedOpen (pre : List Char) : Bool :=
  match pre.getLast? with
  | Option.none => true
  | some w => pyWS w

/-- Spec-side content and boundary condition for a constrained span,
modelled from the specification words: the content does not start or end
with whitespace, and the closing delimiter is followed by end-of-text,
whitespace, or one of the punctuation characters `,;".?!`. -/
def specConstrainedBody (content post : List Char) : Bool :=
  match content with
  | [] => false
  | c0 :: ctail =>
    !pyWS c0 && !pyWS (ctail.getLastD c0) &&
    (match post with
     | [] => true
     | p :: _ => pyWS p || p = ',' || p = ';' || p = '"' || p = '.' || p = '?' || p = '!')

/-- C2 counterexample: in `"a *b c* d"` the starred span satisfies every
condition the claim lists — the opening delimiter follows whitespace, the
content `b c` starts and ends with non-whitespace, and the closing
delimiter is followed by whitespace — yet the converter leaves the text
unchanged, because the pattern additionally requires the second content
character to be non-whitespace. -/
theorem constrained_span_spec_cond_cex :
    specConstrainedOpen "a ".toList = true ∧
    specConstrainedBody "b c".toList " d".toList = true ∧
    ("a *b c* d").toList = "a ".toList ++ '*' :: "b c".toList ++ '*' :: " d".toList ∧
    Adoc2HTML.convert "a *b c* d" = "a *b c* d" :=
  ⟨by decide, by decide, by decide, by rfl⟩

/-- C2 (amended): the constrained-span pass converts a single-delimiter
span of any of the three markers exactly under the opening condition
together with the full body and boundary conditions of the pattern - which
require, beyond what the claim lists, that the second content character is
non-whitespace and that the content has no newline after its first
character - and the two concrete examples from the claim hold. -/
theorem constrained_span_conversion :
    Adoc2HTML.convert "a*b*c" = "a*b*c" ∧
    Adoc2HTML.convert "That is *strong* stuff!" = "That is <b>strong</b> stuff!" ∧
    (∀ pre content post : List Char,
      (∀ c ∈ pre, fmtFree c = true) → (∀ c ∈ content, fmtFree c = true) →
      (∀ c ∈ post, fmtFree c = true) →
      Adoc2HTML.convert_constrained (pre ++ '*' :: content ++ '*' :: post) =
        (if (spanOpenOk pre && spanBodyOk content post) = true
         then pre ++ Adoc2HTML.bWrap content ++ post
         else pre ++ '*' :: content ++ '*' :: post) ∧
      Adoc2HTML.convert_constrained (pre ++ '_' :: content ++ '_' :: post) =
        (if (spanOpenOk pre && spanBodyOk content post) = true
         then pre ++ Adoc2HTML.iWrap content ++ post
         else pre ++ '_' :: content ++ '_' :: post) ∧
      Adoc2HTML.convert_constrained
          (pre ++ backquoteChar :: content ++ backquoteChar :: post) =
        (if (spanOpenOk pre && spanBodyOk content post) = true
         then pre ++ Adoc2HTML.codeWrap content ++ post
         else pre ++ backquoteChar :: content ++ backquoteChar :: post)) :=
  ⟨by rfl, by rfl, fun pre content post h1 h2 h3 =>
    ⟨convert_constrained_star_span pre content post h1 h2 h3,
     convert_constrained_underscore_span pre content post h1 h2 h3,
     convert_constrained_code_span pre content post h1 h2 h3⟩⟩

/-- Witness: the C2 theorem applied at a concrete convertible span. -/
theorem constrained_span_conversion_witness :
    Adoc2HTML.convert_constrained ("x ".toList ++ '*' :: "yz".toList ++ '*' :: "!".toList) =
      (if (spanOpenOk "x ".toList && spanBodyOk "yz".toList "!".toList) = true
       then "x ".toList ++ Adoc2HTML.bWrap "yz".toList ++ "!".toList
       else "x ".toList ++ '*' :: "yz".toList ++ '*' :: "!".toList) :=
  (constrained_span_conversion.2.2 "x ".toList "yz".toList "!".toList
    (by decide) (by decide) (by decide)).1

/-! ### Pseudo-table expansion (claim C6) -/

/-- `MAX_TABLE_ROWS = 12`. -/
def MAX_TABLE_ROWS : Nat := 12

/-- Python `str.rstrip(ch)` for a single character. -/
def pyRstrip (ch : Char) (l : List Char) : List Char :=
  (l.reverse.dropWhile (fun c => c = ch)).reverse

/-- `extract_tags_table_cells`: empty list on the empty row, otherwise the
pipe-separated fields, each stripped. -/
def extract_tags_table_cells (row : List Char) : List (List Char) :=
  if row = [] then [] else (pySplit '|' row).map pyStrip

/-- One `<th>` cell of the heading row. -/
def thCell (cell : List Char) : List Char :=
  "<th>".toList ++ cell ++ "</th>".toList

/-- One `<td>` cell of a data row. -/
def tdCell (cell : List Char) : List Char :=
  "<td>".toList ++ cell ++ "</td>".toList

/-- A literally rendered data row (`index < MAX_TABLE_ROWS` branch). -/
def literalRowHtml (row : List Char) : List Char :=
  "<tr>".toList ++ ((extract_tags_table_cells row).map tdCell).flatten ++ "</tr>".toList

/-- The ellipsis row (`index == MAX_TABLE_ROWS` branch): one `<td>...</td>`
per cell of the row it replaces. -/
def ellipsisRowHtml (row : List Char) : List Char :=
  "<tr>".toList ++
    ((extract_tags_table_cells row).map (fun _ => "<td>...</td>".toList)).flatten ++
    "</tr>".toList

/-- The indexed row loop of the `replacer` in `convert_tags_tables_to_html`:
rows with `index < MAX_TABLE_ROWS` are emitted literally, the row with
`index == MAX_TABLE_ROWS` becomes the ellipsis row, later rows are skipped. -/
def tagsTableRows : Nat → List (List Char) → List Char
  | _, [] => []
  | index, row :: rest =>
    (if index < MAX_TABLE_ROWS then literalRowHtml row
     else if index = MAX_TABLE_ROWS then ellipsisRowHtml row
     else []) ++ tagsTableRows (index + 1) rest

/-- The `replacer` of `convert_tags_tables_to_html` on the two captured
groups: heading line(s) with trailing newlines stripped, then the
pilcrow-separated rows. -/
def tagsTableReplacer (g1 g2 : List Char) : List Char :=
  let heading := pyRstrip '\n' g1
  let rows := pySplit '¶' g2
  let heading_cells := extract_tags_table_cells heading
  "<table>".toList ++
  (if heading_cells = [] then []
   else "<thead>".toList ++ "<tr>".toList ++ (heading_cells.map thCell).flatten ++
     "</tr>".toList ++ "</thead>".toList) ++
  "<tbody>".toList ++ tagsTableRows 0 rows ++ "</tbody>".toList ++ "</table>".toList

/-- Rows past the ellipsis index produce nothing. -/
theorem tagsTableRows_past (rows : List (List Char)) :
    ∀ i, MAX_TABLE_ROWS < i → tagsTableRows i rows = [] := by
  induction rows with
  | nil => intro i _; rfl
  | cons r rest ih =>
    intro i hi
    have h1 : ¬ i < MAX_TABLE_ROWS := by omega
    have h2 : ¬ i = MAX_TABLE_ROWS := by omega
    simp only [tagsTableRows, h1, h2, if_false, List.nil_append]
    exact ih (i + 1) (by omega)

/-- Characterization of the row loop from any index not past the cap: the
first `MAX_TABLE_ROWS - i` rows are emitted literally, then one ellipsis
row if any rows remain. -/
theorem tagsTableRows_char (rows : List (List Char)) :
    ∀ i, i ≤ MAX_TABLE_ROWS →
    tagsTableRows i rows =
      ((rows.take (MAX_TABLE_ROWS - i)).map literalRowHtml).flatten ++
      (match rows.drop (MAX_TABLE_ROWS - i) with
       | [] => []
       | r :: _ => ellipsisRowHtml r) := by
  induction rows with
  | nil => intro i _; simp [tagsTableRows]
  | cons r rest ih =>
    intro i hi
    by_cases hlt : i < MAX_TABLE_ROWS
    · have hk : MAX_TABLE_ROWS - i = (MAX_TABLE_ROWS - (i + 1)) + 1 := by omega
      simp only [tagsTableRows, hlt, if_true]
      rw [ih (i + 1) (by omega), hk, List.take_succ_cons, List.drop_succ_cons]
      simp [List.append_assoc]
    · have hi12 : i = MAX_TABLE_ROWS := by omega
      subst hi12
      simp only [tagsTableRows, lt_irrefl, if_false, if_pos rfl]
      rw [tagsTableRows_past rest (MAX_TABLE_ROWS + 1) (by omega)]
      simp

/-- C6: the table replacer caps rendered rows: for every recognized block
the first `MAX_TABLE_ROWS` (12) rows are rendered literally and, when any
rows remain, exactly one ellipsis row with the column count of the first
excess row follows; in particular a 15-row block renders the 12 literal
rows plus the single ellipsis row and nothing else. -/
theorem table_rows_capped :
    (∀ g1 g2 : List Char,
      tagsTableReplacer g1 g2 =
        "<table>".toList ++
        (if extract_tags_table_cells (pyRstrip '\n' g1) = [] then []
         else "<thead>".toList ++ "<tr>".toList ++
           ((extract_tags_table_cells (pyRstrip '\n' g1)).map thCell).flatten ++
           "</tr>".toList ++ "</thead>".toList) ++
        "<tbody>".toList ++
        ((((pySplit '¶' g2).take MAX_TABLE_ROWS).map literalRowHtml).flatten ++
         (match (pySplit '¶' g2).drop MAX_TABLE_ROWS with
          | [] => []
          | r :: _ => ellipsisRowHtml r)) ++
        "</tbody>".toList ++ "</table>".toList) ∧
    (∀ rows : List (List Char), rows.length = 15 →
      tagsTableRows 0 rows =
        ((rows.take MAX_TABLE_ROWS).map literalRowHtml).flatten ++
          ellipsisRowHtml (rows.getD MAX_TABLE_ROWS []) ∧
      (rows.take MAX_TABLE_ROWS).length = MAX_TABLE_ROWS) := by
  constructor
  · intro g1 g2
    unfold tagsTableReplacer
    simp only [tagsTableRows_char (pySplit '¶' g2) 0 (by omega), Nat.sub_zero]
  · intro rows hlen
    constructor
    · rw [tagsTableRows_char rows 0 (by omega)]
      simp only [Nat.sub_zero]
      rcases hd : rows.drop MAX_TABLE_ROWS with _ | ⟨r, rtail⟩
      · have := congrArg List.length hd
        simp [hlen, MAX_TABLE_ROWS] at this
      · have hget : rows.getD MAX_TABLE_ROWS [] = r := by
          have h1 : rows.getD MAX_TABLE_ROWS [] = (rows.drop MAX_TABLE_ROWS).getD 0 [] := by
            rw [List.getD_eq_getElem?_getD, List.getD_eq_getElem?_getD,
              List.getElem?_drop]
            simp
          rw [h1, hd]
          rfl
        simp only [hd, hget]
    · rw [List.length_take, hlen]
      rfl

/-- Witness: the C6 theorem applied to a concrete 15-row block. -/
theorem table_rows_capped_witness :
    tagsTableRows 0 (List.replicate 15 "a|b".toList) =
      (((List.replicate 15 "a|b".toList).take MAX_TABLE_ROWS).map literalRowHtml).flatten ++
        ellipsisRowHtml ((List.replicate 15 "a|b".toList).getD MAX_TABLE_ROWS []) ∧
    ((List.replicate 15 ("a|b".toList : List Char)).take MAX_TABLE_ROWS).length =
      MAX_TABLE_ROWS :=
  table_rows_capped.2 (List.replicate 15 "a|b".toList) (by decide)

/-! ### Cross-reference link conversion (claim C7) -/

/-- The `ValueError`s the link replacer can raise. -/
inductive LinkErr where
  | emptyLink : List Char → LinkErr
  | tooManyCommas : List Char → LinkErr

/-- `tag2html_link` with the `target_html_fname is None` default collapsing
to the empty string. -/
def tag2html_link (tag_ref link_text : List Char)
    (target_html_fname : Option (List Char)) : List Char :=
  "<a href=\x22".toList ++ target_html_fname.getD [] ++ "#".toList ++ tag_ref ++
    "\x22>".toList ++ link_text ++ "</a>".toList

/-- The `replacer` of `convert_adoc_links_to_html`: split the captured
content on commas, strip each part, then dispatch on the number of parts. -/
def linkReplacer (link_content : List Char) (target : Option (List Char)) :
    Except LinkErr (List Char) :=
  match (pySplit ',' link_content).map pyStrip with
  | [] => Except.error (LinkErr.emptyLink link_content)
  | [t0] => Except.ok (tag2html_link t0 t0 target)
  | [t0, t1] => Except.ok (tag2html_link t0 t1 target)
  | _ :: _ :: _ :: _ => Except.error (LinkErr.tooManyCommas link_content)

/-- The opening-delimiter alternation `(<<|&#60;&#60;)` with its consumed
length. -/
def linkOpenTok (s : List Char) : Option Nat :=
  if "<<".toList.isPrefixOf s then some 2
  else if "&#60;&#60;".toList.isPrefixOf s then some 10
  else Option.none

/-- The closing-delimiter alternation `(>>|&#62;&#62;)` with its consumed
length. -/
def linkCloseTok (s : List Char) : Option Nat :=
  if ">>".toList.isPrefixOf s then some 2
  else if "&#62;&#62;".toList.isPrefixOf s then some 10
  else Option.none

/-- The lazy content-and-close search `(.+?)(>>|&#62;&#62;)`: at least one
non-newline content character, extended only until the first position where
the closing alternation matches.  Returns the content and the characters
consumed including the closing delimiter. -/
def linkSpan : List Char → Option (List Char × Nat)
  | [] => Option.none
  | c :: rest =>
    if c = '\n' then Option.none
    else
      match linkCloseTok rest with
      | some m => some ([c], 1 + m)
      | Option.none => (linkSpan rest).map (fun p => (c :: p.1, 1 + p.2))

/-- One attempted match of the full link pattern at the current position. -/
def linkMatch (s : List Char) : Option (List Char × Nat) :=
  match linkOpenTok s with
  | Option.none => Option.none
  | some k => (linkSpan (s.drop k)).map (fun p => (p.1, k + p.2))

/-- The `re.sub` scan of `convert_adoc_links_to_html`: replacements from
the replacer, which may raise and abort the whole conversion. -/
def linkScan (target : Option (List Char)) : Nat → List Char → Except LinkErr (List Char)
  | 0, s => Except.ok s
  | _ + 1, [] => Except.ok []
  | fuel + 1, c :: rest =>
    match linkMatch (c :: rest) with
    | Option.none => (linkScan target fuel rest).map (fun r => c :: r)
    | some (content, n) =>
      match linkReplacer content target with
      | Except.error e => Except.error e
      | Except.ok rep =>
        (linkScan target fuel ((c :: rest).drop n)).map (fun r => rep ++ r)

/-- `convert_adoc_links_to_html` (raising modelled as `Except.error`). -/
def convert_adoc_links_to_html (text : List Char) (target : Option (List Char)) :
    Except LinkErr (List Char) :=
  linkScan target text.length text

/-- C7: link resolution on the three claimed shapes: `<<foo>>` becomes an
anchor to `#foo` with text `foo`, `<<foo,Bar>>` the same anchor with text
`Bar` (parts stripped of surrounding whitespace), the decimal-entity
escaped variant behaves like `<<foo>>`, and content with more than one
comma is a hard error - in general every content splitting into three or
more parts aborts the conversion with the too-many-commas error. -/
theorem adoc_link_resolution :
    convert_adoc_links_to_html "x <<foo>> y".toList Option.none =
      Except.ok "x <a href=\x22#foo\x22>foo</a> y".toList ∧
    convert_adoc_links_to_html "<<foo,Bar>>".toList Option.none =
      Except.ok "<a href=\x22#foo\x22>Bar</a>".toList ∧
    convert_adoc_links_to_html "<<foo , Bar >>".toList Option.none =
      Except.ok "<a href=\x22#foo\x22>Bar</a>".toList ∧
    convert_adoc_links_to_html "&#60;&#60;foo&#62;&#62;".toList Option.none =
      Except.ok "<a href=\x22#foo\x22>foo</a>".toList ∧
    convert_adoc_links_to_html "<<foo,Bar,Baz>>".toList Option.none =
      Except.error (LinkErr.tooManyCommas "foo,Bar,Baz".toList) ∧
    (∀ (link_content : List Char) (target : Option (List Char)) (t0 t1 t2 : List Char)
       (ts : List (List Char)),
      (pySplit ',' link_content).map pyStrip = t0 :: t1 :: t2 :: ts →
      linkReplacer link_content target =
        Except.error (LinkErr.tooManyCommas link_content)) := by
  refine ⟨by rfl, by rfl, by rfl, by rfl, by rfl, ?_⟩
  intro link_content target t0 t1 t2 ts h
  unfold linkReplacer
  rw [h]

/-- Witness: the C7 theorem applied at a concrete three-part content. -/
theorem adoc_link_resolution_witness :
    linkReplacer "a,b,c".toList Option.none =
      Except.error (LinkErr.tooManyCommas "a,b,c".toList) :=
  adoc_link_resolution.2.2.2.2.2 "a,b,c".toList Option.none
    "a".toList "b".toList "c".toList [] (by rfl)

/-! ### Tag-change detection (`detect_tag_changes.py`, claim C10) -/

/-- The whitespace-collapsing scan of `re.sub(r"\s+", " ", _)`: each maximal
run of whitespace becomes a single space.  The flag records whether the
previous character was inside a whitespace run. -/
def collapseWSAux : Bool → List Char → List Char
  | _, [] => []
  | prevWS, c :: rest =>
    if pyWS c then
      if prevWS then collapseWSAux true rest
      else ' ' :: collapseWSAux true rest
    else c :: collapseWSAux false rest

/-- `TagChangeDetector._normalize_whitespace`. -/
def _normalize_whitespace (text : List Char) : List Char :=
  collapseWSAux false (pyStrip text)

/-- Matcher for the doubled-delimiter strips `\*\*([^\*]+?)\*\*` and
`__([^_]+?)__`. -/
def doubledDelimTry (d : Char) (_prev : Option Char) (s : List Char) :
    Option (List Char × Nat) :=
  match s with
  | a :: b :: t =>
    if a = d ∧ b = d then
      let w := t.takeWhile (fun c => c != d)
      if w.isEmpty then Option.none
      else
        match t.drop w.length with
        | x :: y :: _ =>
          if x = d ∧ y = d then some (w, 2 + w.length + 2) else Option.none
        | _ => Option.none
    else Option.none
  | _ => Option.none

/-- Matcher for the plain single-delimiter strips `\*([^\*]+?)\*`,
backquote, `\^([^\^]+?)\^` and `~([^~]+?)~`. -/
def singleDelimTry (d : Char) (_prev : Option Char) (s : List Char) :
    Option (List Char × Nat) :=
  match s with
  | a :: t =>
    if a = d then
      let w := t.takeWhile (fun c => c != d)
      if w.isEmpty then Option.none
      else
        match t.drop w.length with
        | x :: _ => if x = d then some (w, 1 + w.length + 1) else Option.none
        | _ => Option.none
    else Option.none
  | _ => Option.none

/-- The `(?<!\w)` and `(?!\w)` context checks of the constrained italic
strip (`Option.none` stands for start or end of text). -/
def notWordOpt : Option Char → Bool
  | Option.none => true
  | some p => !pyWordChar p

/-- Matcher for `(?<!\w)_([^_]+?)_(?!\w)`. -/
def wordUnderscoreTry (prev : Option Char) (s : List Char) :
    Option (List Char × Nat) :=
  match s with
  | a :: t =>
    if a = '_' ∧ notWordOpt prev = true then
      let w := t.takeWhile (fun c => c != '_')
      if w.isEmpty then Option.none
      else
        match t.drop w.length with
        | x :: u =>
          if x = '_' ∧ notWordOpt u.head? = true then some (w, 1 + w.length + 1)
          else Option.none
        | _ => Option.none
    else Option.none
  | _ => Option.none

/-- Matcher for the role strip `\[[^\]]+\]#([^#]+?)#`. -/
def roleTextTry (_prev : Option Char) (s : List Char) : Option (List Char × Nat) :=
  match s with
  | '[' :: t =>
    let b := t.takeWhile (fun c => c != ']')
    if b.isEmpty then Option.none
    else
      match t.drop b.length with
      | ']' :: '#' :: u =>
        let w := u.takeWhile (fun c => c != '#')
        if w.isEmpty then Option.none
        else
          match u.drop w.length with
          | '#' :: _ => some (w, 1 + b.length + 2 + w.length + 1)
          | _ => Option.none
      | _ => Option.none
  | _ => Option.none

/-- Matcher for the captioned cross-reference strip
`&lt;&lt;[^,&]+,([^&]+)&gt;&gt;`. -/
def xrefTextTry (_prev : Option Char) (s : List Char) : Option (List Char × Nat) :=
  match stripLit "&lt;&lt;".toList s with
  | Option.none => Option.none
  | some t =>
    let a := t.takeWhile (fun c => c != ',' && c != '&')
    if a.isEmpty then Option.none
    else
      match t.drop a.length with
      | ',' :: u =>
        let b := u.takeWhile (fun c => c != '&')
        if b.isEmpty then Option.none
        else if "&gt;&gt;".toList.isPrefixOf (u.drop b.length) then
          some (b, 8 + a.length + 1 + b.length + 8)
        else Option.none
      | _ => Option.none

/-- Matcher for the plain cross-reference strip `&lt;&lt;[^&]+&gt;&gt;`
(replaced by nothing). -/
def xrefPlainTry (_prev : Option Char) (s : List Char) : Option (List Char × Nat) :=
  match stripLit "&lt;&lt;".toList s with
  | Option.none => Option.none
  | some t =>
    let a := t.takeWhile (fun c => c != '&')
    if a.isEmpty then Option.none
    else if "&gt;&gt;".toList.isPrefixOf (t.drop a.length) then
      some ([], 8 + a.length + 8)
    else Option.none

/-- Matcher for the passthrough strip `\+\+\+([^\+]+?)\+\+\+`. -/
def passthroughTry (_prev : Option Char) (s : List Char) : Option (List Char × Nat) :=
  match s with
  | '+' :: '+' :: '+' :: t =>
    let w := t.takeWhile (fun c => c != '+')
    if w.isEmpty then Option.none
    else
      match t.drop w.length with
      | '+' :: '+' :: '+' :: _ => some (w, 3 + w.length + 3)
      | _ => Option.none
  | _ => Option.none

/-- `TagChangeDetector._strip_asciidoc_formatting`: the eleven substitution
passes in source order, then the final `strip`. -/
def _strip_asciidoc_formatting (text : List Char) : List Char :=
  let r := subScan (doubledDelimTry '*') text.length Option.none text
  let r := subScan (singleDelimTry '*') r.length Option.none r
  let r := subScan (doubledDelimTry '_') r.length Option.none r
  let r := subScan wordUnderscoreTry r.length Option.none r
  let r := subScan (singleDelimTry backquoteChar) r.length Option.none r
  let r := subScan (singleDelimTry '^') r.length Option.none r
  let r := subScan (singleDelimTry '~') r.length Option.none r
  let r := subScan roleTextTry r.length Option.none r
  let r := subScan xrefTextTry r.length Option.none r
  let r := subScan xrefPlainTry r.length Option.none r
  let r := subScan passthroughTry r.length Option.none r
  pyStrip r

/-- `TagChangeDetector._normalize_text`. -/
def _normalize_text (text : List Char) : List Char :=
  _strip_asciidoc_formatting (_normalize_whitespace text)

/-- Python `dict[key]` on a tag map (keys are unique in a JSON object, so
the first match is the value). -/
def tagLookup (tags : List (List Char × List Char)) (k : List Char) : List Char :=
  ((tags.find? (fun p => decide (p.1 = k))).map Prod.snd).getD []

/-- The `TagChanges` container. -/
structure TagChanges where
  added : List (List Char × List Char)
  deleted : List (List Char × List Char)
  modified : List (List Char × List Char × List Char)

/-- `TagChangeDetector.detect_changes`. -/
def detect_changes (reference_tags current_tags : List (List Char × List Char)) :
    TagChanges :=
  let reference_keys := reference_tags.map Prod.fst
  let current_keys := current_tags.map Prod.fst
  { added := (current_keys.filter (fun k => decide (¬ k ∈ reference_keys))).map
      (fun k => (k, tagLookup current_tags k)),
    deleted := (reference_keys.filter (fun k => decide (¬ k ∈ current_keys))).map
      (fun k => (k, tagLookup reference_tags k)),
    modified := ((reference_keys.filter (fun k => decide (k ∈ current_keys))).filter
      (fun k => decide (¬ _normalize_text (tagLookup reference_tags k) =
        _normalize_text (tagLookup current_tags k)))).map
      (fun k => (k, tagLookup reference_tags k, tagLookup current_tags k)) }

/-- The exit status computed at the end of `main`: 1 exactly when any
modifications or deletions were detected. -/
def main_exit (reference_tags current_tags : List (List Char × List Char)) : Nat :=
  if (detect_changes reference_tags current_tags).modified ≠ [] ∨
     (detect_changes reference_tags current_tags).deleted ≠ [] then 1 else 0

/-- The deleted set is empty exactly when every reference key survives. -/
theorem detect_deleted_nil_iff (ref cur : List (List Char × List Char)) :
    (detect_changes ref cur).deleted = [] ↔
      ∀ k ∈ ref.map Prod.fst, k ∈ cur.map Prod.fst := by
  simp [detect_changes, List.map_eq_nil_iff, List.filter_eq_nil_iff]

/-- The modified set is empty exactly when every surviving key has equal
normalized texts. -/
theorem detect_modified_nil_iff (ref cur : List (List Char × List Char)) :
    (detect_changes ref cur).modified = [] ↔
      ∀ k ∈ ref.map Prod.fst, k ∈ cur.map Prod.fst →
        _normalize_text (tagLookup ref k) = _normalize_text (tagLookup cur k) := by
  simp [detect_changes, List.map_eq_nil_iff, List.filter_eq_nil_iff, List.mem_filter]
  constructor
  · intro h k x hk xc hc
    by_contra hne
    exact h k x hk hne xc hc
  · intro h a x ha hne xc hc
    exact hne (h a x ha xc hc)

/-- The detector accepts exactly when nothing was deleted and every common
key has equal normalized texts. -/
theorem main_exit_zero_iff (ref cur : List (List Char × List Char)) :
    main_exit ref cur = 0 ↔
      ((∀ k ∈ ref.map Prod.fst, k ∈ cur.map Prod.fst) ∧
       (∀ k ∈ ref.map Prod.fst, k ∈ cur.map Prod.fst →
         _normalize_text (tagLookup ref k) = _normalize_text (tagLookup cur k))) := by
  unfold main_exit
  by_cases hP : (detect_changes ref cur).modified ≠ [] ∨
      (detect_changes ref cur).deleted ≠ []
  · rw [if_pos hP]
    constructor
    · intro h0; exact absurd h0 (by decide)
    · rintro ⟨h1, h2⟩
      rcases hP with hm | hd
      · exact absurd ((detect_modified_nil_iff ref cur).mpr h2) hm
      · exact absurd ((detect_deleted_nil_iff ref cur).mpr h1) hd
  · rw [if_neg hP]
    push_neg at hP
    exact ⟨fun _ => ⟨(detect_deleted_nil_iff ref cur).mp hP.2,
      (detect_modified_nil_iff ref cur).mp hP.1⟩, fun _ => rfl⟩

/-- C10: the tag-change detector exits 0 iff no reference tag was deleted
and every tag common to both files has equal normalized texts (whitespace
runs collapsed, AsciiDoc formatting stripped); purely additive updates
always exit 0, and texts differing only in whitespace and formatting never
trigger a non-zero exit. -/
theorem tag_change_exit_characterization :
    (∀ ref cur : List (List Char × List Char),
      main_exit ref cur = 0 ↔
        ((∀ k ∈ ref.map Prod.fst, k ∈ cur.map Prod.fst) ∧
         (∀ k ∈ ref.map Prod.fst, k ∈ cur.map Prod.fst →
           _normalize_text (tagLookup ref k) = _normalize_text (tagLookup cur k)))) ∧
    (∀ ref extra : List (List Char × List Char), main_exit ref (ref ++ extra) = 0) ∧
    main_exit [("t".toList, "x  *y* z".toList)]
      [("t".toList, "x *y*  z\n".toList)] = 0 := by
  refine ⟨main_exit_zero_iff, ?_, by rfl⟩
  intro ref extra
  refine (main_exit_zero_iff ref (ref ++ extra)).mpr ⟨?_, ?_⟩
  · intro k hk
    rw [List.map_append, List.mem_append]
    exact Or.inl hk
  · intro k hk _
    obtain ⟨p, hp, hpk⟩ := List.mem_map.1 hk
    rcases hf : ref.find? (fun q => decide (q.1 = k)) with _ | v
    · exfalso
      have hsome : (ref.find? (fun q => decide (q.1 = k))).isSome =
          true := List.find?_isSome.2 ⟨p, hp, by simp [hpk]⟩
      rw [hf] at hsome
      cases hsome
    · unfold tagLookup
      rw [List.find?_append, hf]
      rfl

/-- Witness: the C10 theorem applied to a concrete purely additive update. -/
theorem tag_change_exit_characterization_witness :
    main_exit [("a".toList, "T1".toList)]
      ([("a".toList, "T1".toList)] ++ [("b".toList, "T2".toList)]) = 0 :=
  tag_change_exit_characterization.2.1 [("a".toList, "T1".toList)]
    [("b".toList, "T2".toList)]

end DocsResources
